import Mathlib

/-!
Shallow embedding of `lib/node_layout.py` (appscale-tools): the NodeLayout
topology validator. Dicts are modelled as insertion-ordered association
lists; Python `list(set(..))` deduplication is modelled as keeping the first
occurrence of each element; Python exceptions escaping the validators are
modelled with `Except PyErr`. The validators are modelled for a freshly
constructed NodeLayout (whose `self.nodes` is empty), which is the state in
which `is_valid` runs them.
-/

abbrev Role := String

/-- A YAML value attached to a role key in an ips.yaml description: a single
host string, a list of host strings, or YAML null. -/
inductive IpsVal where
  | s (v : String)
  | l (vs : List String)
  | null
  deriving Repr, DecidableEq

abbrev Yaml := List (String × IpsVal)

/-- Python exceptions that can escape the validation code. -/
inductive PyErr where
  | typeError (msg : String)
  | attributeError (msg : String)
  deriving Repr, DecidableEq

/-- The `{'result': .., 'message': ..}` dicts produced by `valid()` and
`invalid()`. -/
structure CheckResult where
  result : Bool
  message : Option String
  deriving Repr, DecidableEq

/-- `NodeLayout.valid` with its default `message = None`. -/
def validR : CheckResult := { result := true, message := none }

/-- `NodeLayout.invalid`. -/
def invalidR (m : String) : CheckResult := { result := false, message := some m }

def SIMPLE_FORMAT_KEYS : List String := ["controller", "servers"]

def ADVANCED_FORMAT_KEYS : List String :=
  ["master", "database", "appengine", "open", "login", "zookeeper", "memcache", "rabbitmq"]

def VALID_ROLES : List Role :=
  ["master", "appengine", "database", "shadow", "open",
   "load_balancer", "login", "db_master", "db_slave", "zookeeper", "memcache",
   "rabbitmq", "rabbitmq_master", "rabbitmq_slave"]

def DUPLICATE_IPS : String := "Cannot specify the same IP address more than once."

def NO_CONTROLLER : String := "No controller was specified"

def ONLY_ONE_CONTROLLER : String := "Only one controller is allowed"

def NO_YAML_REQUIRES_MIN : String := "Must specify min if not using a YAML file"

def NO_YAML_REQUIRES_MAX : String := "Must specify max if not using a YAML file"

def INPUT_YAML_REQUIRED : String := "A YAML file is required for virtualized clusters"

/-- The deployment parameters read from `options` in `NodeLayout.__init__`. -/
structure LayoutParams where
  infrastructure : Option String
  minVms : Option Nat
  maxVms : Option Nat
  replication : Option Nat
  databaseType : String
  deriving Repr, DecidableEq

/-- Python truthiness of the numeric options (`None` and `0` are falsy). -/
def natFalsy : Option Nat → Bool
  | none => true
  | some 0 => true
  | some (_ + 1) => false

/-- Python truthiness of `self.input_yaml` (`None` and `{}` are falsy). -/
def yamlTruthy : Option Yaml → Bool
  | none => false
  | some y => !y.isEmpty

/-- The membership test `self.infrastructure in InfrastructureAgentFactory.VALID_AGENTS`.
The agent list itself is an external collaborator, so it is passed in as the
parameter `va`. A missing infrastructure (`None`) is never in a list of strings. -/
def infraCloud (va : List String) (infra : Option String) : Bool :=
  match infra with
  | some st => decide (st ∈ va)
  | none => false

/-- `re.match` of `NODE_ID_REGEX = (node)-(\d+)` on a character list; returns
the digits of group(2) when the string starts with `node-` followed by at
least one ASCII digit. -/
def nodeIdMatch : List Char → Option (List Char)
  | 'n' :: 'o' :: 'd' :: 'e' :: '-' :: rest =>
    match rest.takeWhile Char.isDigit with
    | [] => none
    | ds => some ds
  | _ => none

/-- Consume one-or-more digits at the front, as `\d+` does. -/
def digitsThen : List Char → Option (List Char)
  | c :: rest => if c.isDigit then some (rest.dropWhile Char.isDigit) else none
  | [] => none

/-- Consume a literal dot. -/
def dotThen : List Char → Option (List Char)
  | '.' :: rest => some rest
  | _ => none

/-- `re.match` of `IP_REGEX = \d+\.\d+\.\d+\.\d+` (an unanchored-end prefix
match, like `re.match`). -/
def ipMatch (cs : List Char) : Bool :=
  ((((((digitsThen cs).bind dotThen).bind digitsThen).bind dotThen).bind
    digitsThen).bind dotThen |>.bind digitsThen).isSome

/-- `NodeLayout.parse_ip`: returns the id (group(0) of the node-id regex, or
the raw string) and the cloud tag (group(1) `"node"`, or `"not-cloud"`). -/
def parse_ip (ip : String) : String × String :=
  match nodeIdMatch ip.toList with
  | some ds => (String.mk ('n' :: 'o' :: 'd' :: 'e' :: '-' :: ds), "node")
  | none => (ip, "not-cloud")

/-- First-occurrence deduplication: the membership-and-multiplicity model of
Python `list(set(xs))`. CPython 2.7 actually lists a set in ascending
hash-slot order, not first-occurrence order; where the resulting order is
load-bearing (the role counting of `count_roles`), the faithful slot-order
model `pyListSet` below is used instead. -/
def pyDedupAux : List Role → List Role → List Role
  | _, [] => []
  | seen, r :: rest =>
    if r ∈ seen then pyDedupAux seen rest else r :: pyDedupAux (r :: seen) rest

def pyDedup (xs : List Role) : List Role := pyDedupAux [] xs

def controllerExpansion : List Role :=
  ["shadow", "load_balancer", "database", "memcache", "login", "zookeeper", "rabbitmq"]

def serversExpansion : List Role :=
  ["appengine", "memcache", "database", "rabbitmq"]

/-- `SimpleNode.expand_roles`: replace the `controller` and `servers`
composite roles (`list.remove` drops the first occurrence) and deduplicate. -/
def expandRolesSimple (roles : List Role) : List Role :=
  let r1 := if "controller" ∈ roles
    then (roles.erase "controller") ++ controllerExpansion else roles
  let r2 := if "servers" ∈ r1
    then (r1.erase "servers") ++ serversExpansion else r1
  pyDedup r2

/-- `AdvancedNode.expand_roles`: replace `master`, let `login` imply
`load_balancer` and `database` imply `memcache`, and deduplicate. -/
def expandRolesAdvanced (roles : List Role) : List Role :=
  let r1 := if "master" ∈ roles
    then (roles.erase "master") ++ ["shadow", "load_balancer"] else roles
  let r2 := if "login" ∈ r1 then r1 ++ ["load_balancer"] else r1
  let r3 := if "database" ∈ r2 then r2 ++ ["memcache"] else r2
  pyDedup r3

/-- A Node: id, cloud tag, and role list (expansion already applied). -/
structure PyNode where
  id : String
  cloud : String
  roles : List Role
  deriving Repr, DecidableEq

/-- `Node.is_role`. -/
def is_role (n : PyNode) (r : Role) : Bool := decide (r ∈ n.roles)

/-- `Node.errors`: one message per role outside `VALID_ROLES`. -/
def nodeErrors (n : PyNode) : List String :=
  (n.roles.filter (fun r => decide (r ∉ VALID_ROLES))).map (fun r => "Invalid role: " ++ r)

/-- `Node.is_valid`. -/
def nodeIsValid (n : PyNode) : Bool := (nodeErrors n).isEmpty

/-- `SimpleNode.__init__` (expansion runs in the constructor). -/
def mkSimpleNode (id cloud : String) (roles : List Role) : PyNode :=
  { id := id, cloud := cloud, roles := expandRolesSimple roles }

/-- `AdvancedNode.__init__` with the default empty role list. -/
def mkAdvancedNode (id cloud : String) : PyNode :=
  { id := id, cloud := cloud, roles := expandRolesAdvanced [] }

/-- `Node.add_role` on a SimpleNode: append then re-expand. -/
def addRoleS (n : PyNode) (r : Role) : PyNode :=
  { n with roles := expandRolesSimple (n.roles ++ [r]) }

/-- `Node.add_role` on an AdvancedNode: append then re-expand. -/
def addRoleA (n : PyNode) (r : Role) : PyNode :=
  { n with roles := expandRolesAdvanced (n.roles ++ [r]) }

/-- `Node.add_db_role` (SimpleNode). -/
def addDbRoleS (n : PyNode) (isMaster : Bool) : PyNode :=
  if isMaster then addRoleS n "db_master" else addRoleS n "db_slave"

/-- `Node.add_rabbitmq_role` (SimpleNode). -/
def addRabbitRoleS (n : PyNode) (isMaster : Bool) : PyNode :=
  if isMaster then addRoleS n "rabbitmq_master" else addRoleS n "rabbitmq_slave"

/-- `Node.add_db_role` (AdvancedNode). -/
def addDbRoleA (n : PyNode) (isMaster : Bool) : PyNode :=
  if isMaster then addRoleA n "db_master" else addRoleA n "db_slave"

/-- `Node.add_rabbitmq_role` (AdvancedNode). -/
def addRabbitRoleA (n : PyNode) (isMaster : Bool) : PyNode :=
  if isMaster then addRoleA n "rabbitmq_master" else addRoleA n "rabbitmq_slave"

/-- The id-shape check run by both builders against the chosen
infrastructure kind (lines 382-389 and 498-505). -/
def idShapeError (va : List String) (infra : Option String) (id : String) : Option String :=
  if infraCloud va infra then
    if (nodeIdMatch id.toList).isSome then none
    else some (id ++ " is not a valid node ID (must be node-int)")
  else
    if ipMatch id.toList then none
    else some (id ++ " must be an IP address")

/-- `countRole nodes r` is the number of nodes carrying role `r`. -/
def countRole (nodes : List PyNode) (r : Role) : Nat :=
  (nodes.filter (fun n => is_role n r)).length

/-- `NodeLayout.is_database_replication_valid`. Takes and returns
`self.replication` (which the method may set). `if not self.replication`
uses Python truthiness, so a requested factor of 0 is treated as absent. -/
def is_database_replication_valid (nodes : List PyNode) (replication : Option Nat)
    (databaseType : String) : CheckResult × Option Nat :=
  let dbCount := (nodes.filter (fun n => is_role n "database" || is_role n "db_master")).length
  if dbCount = 0 then
    (invalidR "At least one database node must be provided.", replication)
  else
    let rep := if natFalsy replication then (if 3 < dbCount then 3 else dbCount)
      else replication.getD 0
    if dbCount < rep then
      (invalidR "Replication factor cannot exceed # of databases", some rep)
    else if databaseType = "mysql" && !(decide (dbCount % rep = 0)) then
      (invalidR "MySQL requires that the amount of replication be divisible by the number of nodes",
        some rep)
    else (validR, some rep)

/-- The role-count accumulator of `NodeLayout.count_roles`. -/
structure RoleCounts where
  login : Nat
  appengine : Nat
  database : Nat
  zookeeper : Nat
  deriving Repr, DecidableEq

def zeroCounts : RoleCounts := { login := 0, appengine := 0, database := 0, zookeeper := 0 }

/-- The inner loop of `count_roles` over one node's role list: the first role
in list order that is one of the five primary-tier tokens is counted, then
the loop breaks (via the `found_three_tier_role` flag). -/
def countNode : List Role → RoleCounts → RoleCounts
  | [], acc => acc
  | r :: rest, acc =>
    if r = "login" then { acc with login := acc.login + 1 }
    else if r = "appengine" then { acc with appengine := acc.appengine + 1 }
    else if r = "db_master" then { acc with database := acc.database + 1 }
    else if r = "db_slave" then { acc with database := acc.database + 1 }
    else if r = "zookeeper" then { acc with zookeeper := acc.zookeeper + 1 }
    else countNode rest acc

/-- `NodeLayout.count_roles`. -/
def count_roles (nodes : List PyNode) : RoleCounts :=
  nodes.foldl (fun acc n => countNode n.roles acc) zeroCounts

/-- `NodeLayout.is_supported_advanced_format`, as a function of the built
node list. -/
def is_supported_advanced_format (nodes : List PyNode) : Bool :=
  if nodes.length = 1 then true
  else if nodes.length = 4 then
    let c := count_roles nodes
    decide (c.login = 1 ∧ c.appengine = 1 ∧ c.database = 1 ∧ c.zookeeper = 1)
  else if nodes.length = 8 then
    let c := count_roles nodes
    decide (c.login = 1 ∧ c.appengine = 2 ∧ c.database = 2 ∧ c.zookeeper = 3)
  else false

/-- `NodeLayout.is_simple_format`. -/
def is_simple_format (va : List String) (infra : Option String) (yaml : Option Yaml) : Bool :=
  if yamlTruthy yaml then
    (yaml.getD []).all (fun kv => decide (kv.1 ∈ SIMPLE_FORMAT_KEYS))
  else
    infraCloud va infra

/-- `NodeLayout.is_advanced_format`. -/
def is_advanced_format (yaml : Option Yaml) : Bool :=
  if yamlTruthy yaml then
    (yaml.getD []).all (fun kv => decide (kv.1 ∈ ADVANCED_FORMAT_KEYS))
  else
    false

/-- The hosts the builders iterate for one YAML value. A plain string is
wrapped in a one-element list; iterating a null value raises `TypeError`
(modelled as `none` here; the builders turn it into the exception). The
simple builder's `if not ips: next` line does not skip anything: `next` is a
bare name, not `continue`, so it is a no-op. -/
def hostsOf : IpsVal → Option (List String)
  | .s v => some [v]
  | .l vs => some vs
  | .null => none

/-- One node of the simple builder: `SimpleNode(id, cloud, [role])` plus the
`db` and `rabbitmq` master/slave roles pinned by the shadow test
(lines 368-377). -/
def simpleBuildNode (role ip : String) : PyNode :=
  let pr := parse_ip ip
  let node := mkSimpleNode pr.1 pr.2 [role]
  let isM := is_role node "shadow"
  addRabbitRoleS (addDbRoleS node isM) isM

/-- The per-host part of the simple build loop. An invalid node triggers
`node.errors().join(",")`, which raises `AttributeError` (Python lists have
no `join` method). -/
def buildHostsSimple (va : List String) (infra : Option String) (role : String) :
    List String → Except PyErr (Except String (List PyNode))
  | [] => .ok (.ok [])
  | ip :: rest =>
    let node := simpleBuildNode role ip
    if nodeIsValid node = false then
      .error (.attributeError "list object has no attribute join")
    else
      match idShapeError va infra node.id with
      | some m => .ok (.error m)
      | none =>
        match buildHostsSimple va infra role rest with
        | .error e => .error e
        | .ok (.error m) => .ok (.error m)
        | .ok (.ok ns) => .ok (.ok (node :: ns))

/-- The simple build loop over the description's (role, ips) entries
(lines 361-391). -/
def buildSimpleLoop (va : List String) (infra : Option String) :
    Yaml → Except PyErr (Except String (List PyNode))
  | [] => .ok (.ok [])
  | (role, ips) :: rest =>
    match hostsOf ips with
    | none => .error (.typeError "NoneType object is not iterable")
    | some hosts =>
      match buildHostsSimple va infra role hosts with
      | .error e => .error e
      | .ok (.error m) => .ok (.error m)
      | .ok (.ok ns) =>
        match buildSimpleLoop va infra rest with
        | .error e => .error e
        | .ok (.error m) => .ok (.error m)
        | .ok (.ok ns2) => .ok (.ok (ns ++ ns2))

/-- `all_ips` as collected by the duplicate check (lines 396-402) from the
description's values. A null value cannot reach this point: the build loop
has already raised `TypeError` on it. -/
def flattenVals (y : Yaml) : List String :=
  y.foldr (fun kv acc =>
    (match kv.2 with
     | .l vs => vs
     | .s v => [v]
     | .null => []) ++ acc) []

/-- `generate_cloud_layout`. -/
def generate_cloud_layout (minVms : Nat) : Yaml :=
  [("controller", .s "node-0"),
   ("servers", .l ((List.range (minVms - 1)).map (fun i => "node-" ++ toString (i + 1))))]

/-- Replace the node at an index (the model of mutating a node aliased from
the list, e.g. `nodes[0]` or `master_node`). Out-of-range is a no-op. -/
def updateIdx (f : PyNode → PyNode) : List PyNode → Nat → List PyNode
  | [], _ => []
  | n :: rest, 0 => f n :: rest
  | n :: rest, i + 1 => n :: updateIdx f rest i

/-- The outcome of one validator run: the returned check dict, `self.nodes`
(set only on success), and the possibly-updated numeric options. -/
structure LayoutOut where
  check : CheckResult
  nodes : List PyNode
  replication : Option Nat
  minVms : Option Nat
  maxVms : Option Nat
  deriving Repr, DecidableEq

/-- Singleton promotion (lines 408-411): a single-node deployment also gets
`appengine` and `memcache`. -/
def promoteSingleton (nodes : List PyNode) : List PyNode :=
  if nodes.length = 1 then
    updateIdx (fun n => addRoleS (addRoleS n "appengine") "memcache") nodes 0
  else nodes

/-- The body of `is_valid_simple_format` from the build loop on, applied to
the effective (possibly generated) description `y`. -/
def simpleValidateYaml (va : List String) (p : LayoutParams) (y : Yaml) :
    Except PyErr LayoutOut :=
  match buildSimpleLoop va p.infrastructure y with
  | .error e => .error e
  | .ok (.error m) =>
    .ok { check := invalidR m, nodes := [], replication := p.replication,
          minVms := p.minVms, maxVms := p.maxVms }
  | .ok (.ok nodes0) =>
    let allIps := flattenVals y
    if 0 < allIps.length - (pyDedup allIps).length then
      .ok { check := invalidR DUPLICATE_IPS, nodes := [], replication := p.replication,
            minVms := p.minVms, maxVms := p.maxVms }
    else
      let nodes := promoteSingleton nodes0
      let cc := countRole nodes "shadow"
      if cc = 0 then
        .ok { check := invalidR NO_CONTROLLER, nodes := [], replication := p.replication,
              minVms := p.minVms, maxVms := p.maxVms }
      else if 1 < cc then
        .ok { check := invalidR ONLY_ONE_CONTROLLER, nodes := [], replication := p.replication,
              minVms := p.minVms, maxVms := p.maxVms }
      else
        let cres := is_database_replication_valid nodes p.replication p.databaseType
        if cres.1.result then
          .ok { check := cres.1, nodes := nodes, replication := cres.2,
                minVms := p.minVms, maxVms := p.maxVms }
        else
          .ok { check := cres.1, nodes := [], replication := cres.2,
                minVms := p.minVms, maxVms := p.maxVms }

/-- `NodeLayout.is_valid_simple_format` on a fresh layout: pick the
effective description (the given one when truthy, a generated cloud layout
when absent on a recognized agent), then validate it. -/
def is_valid_simple_format (va : List String) (p : LayoutParams) (yaml : Option Yaml) :
    Except PyErr LayoutOut :=
  if yamlTruthy yaml then
    simpleValidateYaml va p (yaml.getD [])
  else if infraCloud va p.infrastructure then
    if natFalsy p.minVms then
      .ok { check := invalidR NO_YAML_REQUIRES_MIN, nodes := [], replication := p.replication,
            minVms := p.minVms, maxVms := p.maxVms }
    else if natFalsy p.maxVms then
      .ok { check := invalidR NO_YAML_REQUIRES_MAX, nodes := [], replication := p.replication,
            minVms := p.minVms, maxVms := p.maxVms }
    else
      simpleValidateYaml va p (generate_cloud_layout (p.minVms.getD 0))
  else
    .ok { check := invalidR INPUT_YAML_REQUIRED, nodes := [], replication := p.replication,
          minVms := p.minVms, maxVms := p.maxVms }

abbrev Hash := List (String × PyNode)

/-- Lookup in the `node_hash` dict. -/
def hashGet : Hash → String → Option PyNode
  | [], _ => none
  | (k, v) :: rest, ip => if k = ip then some v else hashGet rest ip

/-- Assignment `node_hash[ip] = node`: replace in place, or append. -/
def hashSet : Hash → String → PyNode → Hash
  | [], ip, n => [(ip, n)]
  | (k, v) :: rest, ip, n =>
    if k = ip then (k, n) :: rest else (k, v) :: hashSet rest ip n

/-- `node_hash[ip] if ip in node_hash else AdvancedNode(*parse_ip(ip))`. -/
def getOrCreate (h : Hash) (ip : String) : PyNode :=
  match hashGet h ip with
  | some n => n
  | none =>
    let pr := parse_ip ip
    mkAdvancedNode pr.1 pr.2

/-- The role-dispatch of one (index, ip) step of the advanced build loop
(lines 468-487): `database` splits into db_master (index 0) / db_slave; the
`db_master` key adds `zookeeper` and the literal role token `role`;
`rabbitmq` adds the `rabbitmq` role plus its master/slave split; every other
key is attributed as-is. -/
def advDispatch (role : String) (index : Nat) (node : PyNode) : PyNode :=
  if role = "database" then addDbRoleA node (index = 0)
  else if role = "db_master" then addRoleA (addRoleA node "zookeeper") "role"
  else if role = "rabbitmq" then addRabbitRoleA (addRoleA node "rabbitmq") (index = 0)
  else addRoleA node role

/-- One (index, ip) step of the advanced build loop: fetch-or-create the
node, dispatch on the role key, store back. -/
def advProcessHost (role : String) (index : Nat) (h : Hash) (ip : String) : Hash :=
  hashSet h ip (advDispatch role index (getOrCreate h ip))

def advProcessHosts (role : String) : Nat → Hash → List String → Hash
  | _, h, [] => h
  | i, h, ip :: rest => advProcessHosts role (i + 1) (advProcessHost role i h ip) rest

/-- The advanced build loop over the description's entries. Iterating a null
value raises `TypeError` (no str-wrap applies, and `enumerate(None)` fails). -/
def advLoop : Hash → Yaml → Except PyErr Hash
  | h, [] => .ok h
  | h, (role, ips) :: rest =>
    match hostsOf ips with
    | none => .error (.typeError "NoneType object is not iterable")
    | some hosts => advLoop (advProcessHosts role 0 h hosts) rest

/-- The per-node validity and id-shape pass of `is_valid_advanced_format`
(lines 494-505). Here the error join is the correct `",".join(node.errors())`. -/
def advNodeChecks (va : List String) (infra : Option String) : List PyNode → Option String
  | [] => none
  | n :: rest =>
    if nodeIsValid n = false then some (String.intercalate "," (nodeErrors n))
    else
      match idShapeError va infra n.id with
      | some m => some m
      | none => advNodeChecks va infra rest

/-- Login promotion (lines 520-527): if no node carries `login`, the master
node (the first `shadow` node, at index `mi`) gets it. -/
def advPromote1 (nodes : List PyNode) (mi : Nat) : List PyNode :=
  if countRole nodes "login" = 0 then
    updateIdx (fun n => addRoleA n "login") nodes mi
  else nodes

/-- Memcache promotion (lines 537-547): if no node carries `memcache`, every
`appengine` node gets it. -/
def advPromote2 (nodes : List PyNode) : List PyNode :=
  if countRole nodes "memcache" = 0 then
    nodes.map (fun n => if is_role n "appengine" then addRoleA n "memcache" else n)
  else nodes

/-- Zookeeper promotion (lines 555-560): if no node carries `zookeeper`, the
master node gets it. -/
def advPromote3 (nodes : List PyNode) (mi : Nat) : List PyNode :=
  if countRole nodes "zookeeper" = 0 then
    updateIdx (fun n => addRoleA n "zookeeper") nodes mi
  else nodes

/-- Rabbitmq promotion (lines 562-570): if no node carries `rabbitmq`, the
master node gets `rabbitmq` and `rabbitmq_master`. -/
def advPromote4 (nodes : List PyNode) (mi : Nat) : List PyNode :=
  if countRole nodes "rabbitmq" = 0 then
    updateIdx (fun n => addRoleA (addRoleA n "rabbitmq") "rabbitmq_master") nodes mi
  else nodes

/-- Rabbitmq-slave promotion (lines 572-577): every `appengine` node lacking
`rabbitmq` gets `rabbitmq_slave`. -/
def advPromote5 (nodes : List PyNode) : List PyNode :=
  nodes.map (fun n =>
    if is_role n "appengine" && !(is_role n "rabbitmq") then
      addRoleA n "rabbitmq_slave" else n)

/-- `NodeLayout.is_valid_advanced_format` on a fresh layout, as a function
of the (advanced-classified) description. -/
def is_valid_advanced_format (va : List String) (p : LayoutParams) (y : Yaml) :
    Except PyErr LayoutOut :=
  match advLoop [] y with
  | .error e => .error e
  | .ok h =>
    let nodes := h.map Prod.snd
    match advNodeChecks va p.infrastructure nodes with
    | some m =>
      .ok { check := invalidR m, nodes := [], replication := p.replication,
            minVms := p.minVms, maxVms := p.maxVms }
    | none =>
      let cc := countRole nodes "shadow"
      if cc = 0 then
        .ok { check := invalidR "No master was specified", nodes := [],
              replication := p.replication, minVms := p.minVms, maxVms := p.maxVms }
      else if 1 < cc then
        .ok { check := invalidR "Only one master is allowed", nodes := [],
              replication := p.replication, minVms := p.minVms, maxVms := p.maxVms }
      else
        let mi := nodes.findIdx (fun n => is_role n "shadow")
        let n1 := advPromote1 nodes mi
        if countRole n1 "appengine" = 0 then
          .ok { check := invalidR "Need to specify at least one appengine node", nodes := [],
                replication := p.replication, minVms := p.minVms, maxVms := p.maxVms }
        else
          let n2 := advPromote2 n1
          let minV := if infraCloud va p.infrastructure && natFalsy p.minVms then
              some n2.length else p.minVms
          let maxV := if infraCloud va p.infrastructure && natFalsy p.maxVms then
              some n2.length else p.maxVms
          let n5 := advPromote5 (advPromote4 (advPromote3 n2 mi) mi)
          let cres := is_database_replication_valid n5 p.replication p.databaseType
          if cres.1.result then
            .ok { check := cres.1, nodes := n5, replication := cres.2,
                  minVms := minV, maxVms := maxV }
          else
            .ok { check := cres.1, nodes := [], replication := cres.2,
                  minVms := minV, maxVms := maxV }

/-- `NodeLayout.is_valid`. -/
def is_valid (va : List String) (p : LayoutParams) (yaml : Option Yaml) : Except PyErr Bool :=
  if is_simple_format va p.infrastructure yaml then
    (is_valid_simple_format va p yaml).map (fun o => o.check.result)
  else if is_advanced_format yaml then
    (is_valid_advanced_format va p (yaml.getD [])).map (fun o => o.check.result)
  else
    .ok false

/-- Result flag of a simple-format validation run. -/
def simpleResultOk (va : List String) (p : LayoutParams) (yaml : Option Yaml) : Bool :=
  match is_valid_simple_format va p yaml with
  | .ok o => o.check.result
  | .error _ => false

/-- Node set of a simple-format validation run. -/
def simpleResultNodes (va : List String) (p : LayoutParams) (yaml : Option Yaml) : List PyNode :=
  match is_valid_simple_format va p yaml with
  | .ok o => o.nodes
  | .error _ => []

/-- Result flag of an advanced-format validation run. -/
def advResultOk (va : List String) (p : LayoutParams) (y : Yaml) : Bool :=
  match is_valid_advanced_format va p y with
  | .ok o => o.check.result
  | .error _ => false

/-- Node set of an advanced-format validation run. -/
def advResultNodes (va : List String) (p : LayoutParams) (y : Yaml) : List PyNode :=
  match is_valid_advanced_format va p y with
  | .ok o => o.nodes
  | .error _ => []

/-- Replication factor of an advanced-format validation run. -/
def advResultRepl (va : List String) (p : LayoutParams) (y : Yaml) : Option Nat :=
  match is_valid_advanced_format va p y with
  | .ok o => o.replication
  | .error _ => none

/-- Whether the node stored under `ip` carries role `r`. -/
def roleAt (h : Hash) (ip : String) (r : Role) : Bool :=
  match hashGet h ip with
  | some n => is_role n r
  | none => false

/-- Formalization of the claim's description of the replication validator,
written from the claim text: reject when no database node exists; derive the
factor (3 above 3 database nodes, else the database-node count) when none
was requested; reject a factor exceeding the database-node count; and, for
the backend `"mysql"` only, reject when the count is not evenly divisible by
the factor; otherwise accept. -/
def replicationClaimModel (nodes : List PyNode) (requested : Option Nat)
    (backend : String) : CheckResult × Option Nat :=
  let dbCount := (nodes.filter (fun n => is_role n "database" || is_role n "db_master")).length
  if dbCount = 0 then
    (invalidR "At least one database node must be provided.", requested)
  else
    let factor := match requested with
      | none => if 3 < dbCount then 3 else dbCount
      | some r => r
    if dbCount < factor then
      (invalidR "Replication factor cannot exceed # of databases", some factor)
    else if backend = "mysql" && !(decide (dbCount % factor = 0)) then
      (invalidR "MySQL requires that the amount of replication be divisible by the number of nodes",
        some factor)
    else (validR, some factor)

def primaryTierRoles : List Role := ["login", "appengine", "db_master", "db_slave", "zookeeper"]

/-- Bump the counter corresponding to one primary-tier role token. -/
def bumpCount (acc : RoleCounts) (r : Role) : RoleCounts :=
  if r = "login" then { acc with login := acc.login + 1 }
  else if r = "appengine" then { acc with appengine := acc.appengine + 1 }
  else if r = "db_master" || r = "db_slave" then { acc with database := acc.database + 1 }
  else if r = "zookeeper" then { acc with zookeeper := acc.zookeeper + 1 }
  else acc

/-- Role counting in which each node contributes its first primary-tier role
in role-list order (the behaviour `count_roles` actually implements). -/
def countRolesFirstMatch (nodes : List PyNode) : RoleCounts :=
  nodes.foldl (fun acc n =>
    match n.roles.find? (fun r => decide (r ∈ primaryTierRoles)) with
    | some r => bumpCount acc r
    | none => acc) zeroCounts

/-- Role counting as the claim words it: each node contributes at most one
primary-tier role, chosen by the fixed priority order
login > appengine > db_master/db_slave > zookeeper. -/
def countRolesPriority (nodes : List PyNode) : RoleCounts :=
  nodes.foldl (fun acc n =>
    if "login" ∈ n.roles then { acc with login := acc.login + 1 }
    else if "appengine" ∈ n.roles then { acc with appengine := acc.appengine + 1 }
    else if "db_master" ∈ n.roles ∨ "db_slave" ∈ n.roles then
      { acc with database := acc.database + 1 }
    else if "zookeeper" ∈ n.roles then { acc with zookeeper := acc.zookeeper + 1 }
    else acc) zeroCounts

/-- The 64-bit CPython 2.7 string hash (`string_hash` in stringobject.c,
with hash randomization off, the 2.7 default): x starts as the first byte
shifted left 7, each byte folds in as x = (1000003*x) xor byte, the length
is xored in last, and the unsigned image of -1 becomes that of -2. All
arithmetic wraps modulo 2^64; role tokens are ASCII, so bytes coincide with
character codes. (Validated against the known value of hash of the
one-letter string a, 12416037344.) -/
def py2hash (s : String) : Nat :=
  match s.toList with
  | [] => 0
  | c0 :: _ =>
    let x0 := (c0.toNat <<< 7) % 18446744073709551616
    let x1 := s.toList.foldl
      (fun x c => ((1000003 * x) % 18446744073709551616) ^^^ c.toNat) x0
    let x2 := x1 ^^^ s.length
    if x2 = 18446744073709551615 then 18446744073709551614 else x2

/-- The CPython 2.7 open-addressing probe walk over an 8-slot set table
(`set_lookkey` in setobject.c): start at hash mod 8, and on a collision step
to i = 5*i + perturb + 1 (modulo 2^64, accessed mod 8) with perturb, started
at the hash, shifted right 5 each step. The fuel bound only caps the walk;
an 8-slot table never needs 64 probes. -/
def setProbe : Nat → List (Option String) → String → Nat → Nat → List (Option String)
  | 0, t, _, _, _ => t
  | fuel + 1, t, s, i, perturb =>
    match t.getD (i % 8) none with
    | none => t.set (i % 8) (some s)
    | some x =>
      if x = s then t
      else setProbe fuel t s ((5 * i + perturb + 1) % 18446744073709551616) (perturb / 32)

/-- Insert one string into an 8-slot CPython 2.7 set table. -/
def setInsert (t : List (Option String)) (s : String) : List (Option String) :=
  setProbe 64 t s (py2hash s % 8) (py2hash s)

/-- `list(set(l))` as CPython 2.7 computes it for up to five distinct
strings: build the 8-slot table by inserting in list order (a table this
small is never resized: resizing needs a sixth entry), then read the slots
in ascending order. -/
def pyListSet (l : List String) : List String :=
  (l.foldl setInsert [none, none, none, none, none, none, none, none]).filterMap id

/-- `count_roles` as it acts on the stored role lists of a built layout: the
list a node actually stores is the CPython set-order listing of its role
set (the last `expand_roles` ends with `self.roles = list(set(self.roles))`),
so counting walks each role set in slot order. Exact whenever each role set
has at most five elements in pairwise distinct slots, as probing then never
fires and the stored order is slot order regardless of insertion order. -/
def count_roles_real (nodes : List PyNode) : RoleCounts :=
  nodes.foldl (fun acc n => countNode (pyListSet n.roles) acc) zeroCounts

/-- `is_supported_advanced_format` as it acts on a built layout: the source
recognizer over the stored (slot-ordered) role lists. -/
def is_supported_advanced_format_real (nodes : List PyNode) : Bool :=
  if nodes.length = 1 then true
  else if nodes.length = 4 then
    let c := count_roles_real nodes
    decide (c.login = 1 ∧ c.appengine = 1 ∧ c.database = 1 ∧ c.zookeeper = 1)
  else if nodes.length = 8 then
    let c := count_roles_real nodes
    decide (c.login = 1 ∧ c.appengine = 2 ∧ c.database = 2 ∧ c.zookeeper = 3)
  else false

/-- Role counting in which each node contributes the first primary-tier role
of its stored (slot-ordered) role list. -/
def countRolesFirstMatchReal (nodes : List PyNode) : RoleCounts :=
  nodes.foldl (fun acc n =>
    match (pyListSet n.roles).find? (fun r => decide (r ∈ primaryTierRoles)) with
    | some r => bumpCount acc r
    | none => acc) zeroCounts

/-- Parameters with no infrastructure, no counts, no requested replication,
and a cassandra backend. -/
def pPlain : LayoutParams :=
  { infrastructure := none, minVms := none, maxVms := none, replication := none,
    databaseType := "cassandra" }

/-- Simple two-node description used as a witness input. -/
def ySimpleTwo : Yaml := [("controller", .s "1.1.1.1"), ("servers", .s "1.1.1.2")]

/-- Simple one-node description used as a witness input. -/
def ySimpleOne : Yaml := [("controller", .s "1.1.1.1")]

/-- Three-node advanced description used as a witness input. -/
def yAdvThree : Yaml :=
  [("master", .s "1.1.1.1"), ("appengine", .s "1.1.1.2"), ("database", .s "1.1.1.3")]

/-- The C3 failing input: a simple-dialect description whose role entry is
null. -/
def yNullEntry : Yaml := [("controller", .null)]

/-- The C4 counterexample description. The four final role sets are
shadow/load_balancer/db_master, appengine/zookeeper/rabbitmq_slave,
login/load_balancer/memcache and zookeeper/rabbitmq/rabbitmq_master; their
64-bit CPython 2.7 hash slots (identical to the 32-bit slots for every role
token) are 2/0/6, 6/3/4, 2/0/3 and 3/6/0 — pairwise distinct within each
set, so each stored list is in pure ascending slot order. The node listed
under `appengine` and `zookeeper` stores zookeeper (slot 3) before appengine
(slot 6), so `count_roles` counts it as a zookeeper node while the claimed
priority order counts it as an appengine node. -/
def yC4 : Yaml :=
  [("master", .s "10.0.0.1"), ("database", .s "10.0.0.1"),
   ("appengine", .s "10.0.0.2"), ("zookeeper", .l ["10.0.0.2", "10.0.0.4"]),
   ("login", .s "10.0.0.3"), ("memcache", .s "10.0.0.3"),
   ("rabbitmq", .s "10.0.0.4")]

/-- The C6 counterexample description: the host id `foo` is duplicated but is
not IP-shaped. -/
def yC6 : Yaml := [("controller", .s "foo"), ("servers", .s "foo")]

/-- A simple description with a duplicated (well-shaped) host id, used as the
witness input of the amended C6. -/
def yC6dup : Yaml := [("controller", .s "1.1.1.1"), ("servers", .l ["1.1.1.2", "1.1.1.2"])]

/-- The C10 counterexample description: the key `db_master` is not in the
advanced vocabulary. -/
def yC10 : Yaml := [("db_master", .s "10.0.0.1")]

/-- An advanced description containing a `db_master` key, used as the witness
input of the amended C10. -/
def yC10b : Yaml := [("master", .s "10.0.0.1"), ("db_master", .l ["10.0.0.2", "10.0.0.3"])]

/-- The node hash built by the advanced build loop (empty on a build that
raises). -/
def advBuildHash (y : Yaml) : Hash :=
  match advLoop [] y with
  | .ok h => h
  | .error _ => []

/-- Advanced description with a three-host database list, used as the C5
witness input. -/
def yC5 : Yaml := [("database", .l ["10.0.0.1", "10.0.0.2", "10.0.0.3"])]

/-- The single node produced by validating `ySimpleOne` (used as the C8
witness). -/
def nC8 : PyNode :=
  { id := "1.1.1.1", cloud := "not-cloud",
    roles := ["shadow", "load_balancer", "database", "memcache", "login", "zookeeper",
              "rabbitmq", "db_master", "rabbitmq_master", "appengine"] }

/-! Basic lemmas about first-occurrence deduplication. -/

theorem mem_pyDedupAux (a : Role) (seen l : List Role) :
    a ∈ pyDedupAux seen l ↔ a ∈ l ∧ a ∉ seen := by
  induction l generalizing seen with
  | nil => simp [pyDedupAux]
  | cons r rest ih =>
    by_cases hr : r ∈ seen
    · simp only [pyDedupAux, hr, if_true]
      constructor
      · intro h
        obtain ⟨ha, hs⟩ := (ih seen).mp h
        exact ⟨List.mem_cons_of_mem r ha, hs⟩
      · rintro ⟨h1, hs⟩
        refine (ih seen).mpr ⟨?_, hs⟩
        rcases List.mem_cons.mp h1 with rfl | h
        · exact absurd hr hs
        · exact h
    · simp only [pyDedupAux, hr, if_false]
      constructor
      · intro h
        rcases List.mem_cons.mp h with rfl | h2
        · exact ⟨List.mem_cons_self a rest, hr⟩
        · obtain ⟨ha, hs⟩ := (ih (r :: seen)).mp h2
          exact ⟨List.mem_cons_of_mem r ha, fun hsa => hs (List.mem_cons_of_mem r hsa)⟩
      · rintro ⟨h1, hs⟩
        by_cases har : a = r
        · subst har
          exact List.mem_cons_self a _
        · have h2 : a ∈ rest := by
            rcases List.mem_cons.mp h1 with h | h
            · exact absurd h har
            · exact h
          refine List.mem_cons_of_mem r ((ih (r :: seen)).mpr ⟨h2, fun hsa => ?_⟩)
          rcases List.mem_cons.mp hsa with h | h
          · exact har h
          · exact hs h

theorem mem_pyDedup (a : Role) (l : List Role) : a ∈ pyDedup l ↔ a ∈ l := by
  simp [pyDedup, mem_pyDedupAux]

theorem pyDedupAux_nodup (seen l : List Role) : (pyDedupAux seen l).Nodup := by
  induction l generalizing seen with
  | nil => simp [pyDedupAux]
  | cons r rest ih =>
    by_cases hr : r ∈ seen <;> simp only [pyDedupAux, hr, if_true, if_false]
    · exact ih seen
    · refine List.nodup_cons.mpr ⟨fun hmem => ?_, ih (r :: seen)⟩
      exact ((mem_pyDedupAux r (r :: seen) rest).mp hmem).2 (List.mem_cons_self r seen)

theorem pyDedup_nodup (l : List Role) : (pyDedup l).Nodup := pyDedupAux_nodup [] l

theorem pyDedupAux_eq_self (seen l : List Role) (hn : l.Nodup)
    (hd : ∀ a ∈ l, a ∉ seen) : pyDedupAux seen l = l := by
  induction l generalizing seen with
  | nil => simp [pyDedupAux]
  | cons r rest ih =>
    have hr : r ∉ seen := hd r (List.mem_cons_self r rest)
    simp only [pyDedupAux, hr, if_false]
    have hnr := List.nodup_cons.mp hn
    refine congrArg (r :: ·) (ih (r :: seen) hnr.2 fun a ha => ?_)
    intro hmem
    rcases List.mem_cons.mp hmem with rfl | hmem2
    · exact hnr.1 ha
    · exact hd a (List.mem_cons_of_mem r ha) hmem2

theorem pyDedup_eq_self_of_nodup (l : List Role) (hn : l.Nodup) : pyDedup l = l :=
  pyDedupAux_eq_self [] l hn (by simp)

theorem length_pyDedupAux_le (seen l : List Role) :
    (pyDedupAux seen l).length ≤ l.length := by
  induction l generalizing seen with
  | nil => simp [pyDedupAux]
  | cons r rest ih =>
    by_cases hr : r ∈ seen <;> simp only [pyDedupAux, hr, if_true, if_false, List.length_cons]
    · exact Nat.le_succ_of_le (ih seen)
    · simpa using ih (r :: seen)

theorem length_pyDedupAux_lt (seen l : List Role)
    (h : (∃ a ∈ l, a ∈ seen) ∨ ¬ l.Nodup) :
    (pyDedupAux seen l).length < l.length := by
  induction l generalizing seen with
  | nil =>
    exfalso
    rcases h with ⟨a, ha, _⟩ | hnd
    · exact absurd ha (List.not_mem_nil a)
    · exact hnd List.nodup_nil
  | cons r rest ih =>
    by_cases hr : r ∈ seen <;> simp only [pyDedupAux, hr, if_true, if_false, List.length_cons]
    · exact Nat.lt_succ_of_le (length_pyDedupAux_le seen rest)
    · have hrec : (∃ a ∈ rest, a ∈ r :: seen) ∨ ¬ rest.Nodup := by
        rcases h with ⟨a, ha, hseen⟩ | hnd
        · rcases List.mem_cons.mp ha with rfl | ha2
          · exact absurd hseen hr
          · exact Or.inl ⟨a, ha2, List.mem_cons_of_mem r hseen⟩
        · rcases List.nodup_cons.not.mp hnd |> not_and_or.mp with hmem | hnd2
          · exact Or.inl ⟨r, not_not.mp hmem, List.mem_cons_self r seen⟩
          · exact Or.inr hnd2
      exact Nat.succ_lt_succ (ih (r :: seen) hrec)

theorem pyDedup_length_lt_of_not_nodup (l : List Role) (h : ¬ l.Nodup) :
    (pyDedup l).length < l.length :=
  length_pyDedupAux_lt [] l (Or.inr h)

theorem pyDedupAux_append_one (seen l : List Role) (b : Role)
    (hb : b ∈ l ∨ b ∈ seen) : pyDedupAux seen (l ++ [b]) = pyDedupAux seen l := by
  induction l generalizing seen with
  | nil =>
    rcases hb with hb | hb
    · exact absurd hb (List.not_mem_nil b)
    · simp [pyDedupAux, hb]
  | cons r rest ih =>
    by_cases hr : r ∈ seen <;>
      simp only [List.cons_append, pyDedupAux, hr, if_true, if_false]
    · refine ih seen ?_
      rcases hb with hb | hb
      · rcases List.mem_cons.mp hb with rfl | hb2
        · exact Or.inr hr
        · exact Or.inl hb2
      · exact Or.inr hb
    · refine congrArg (r :: ·) (ih (r :: seen) ?_)
      rcases hb with hb | hb
      · rcases List.mem_cons.mp hb with rfl | hb2
        · exact Or.inr (List.mem_cons_self b seen)
        · exact Or.inl hb2
      · exact Or.inr (List.mem_cons_of_mem r hb)

theorem pyDedup_append_subset (l t : List Role) (ht : ∀ a ∈ t, a ∈ l) :
    pyDedup (l ++ t) = pyDedup l := by
  induction t generalizing l with
  | nil => simp
  | cons b t2 ih =>
    have h1 : l ++ b :: t2 = (l ++ [b]) ++ t2 := by simp
    rw [h1, ih (l ++ [b]) (fun a ha => List.mem_append_left [b] (ht a (List.mem_cons_of_mem b ha)))]
    exact pyDedupAux_append_one [] l b (Or.inl (ht b (List.mem_cons_self b t2)))

/-! Membership lemmas for the two role-expansion functions. -/

theorem mem_erase_step (a b : Role) (l e : List Role) (hne : a ≠ b) (h : a ∈ l) :
    a ∈ (if b ∈ l then l.erase b ++ e else l) := by
  split
  · exact List.mem_append_left e ((List.mem_erase_of_ne hne).mpr h)
  · exact h

theorem mem_erase_step_intro (a b : Role) (l e : List Role)
    (h : a ∈ (if b ∈ l then l.erase b ++ e else l)) : a ∈ l ∨ a ∈ e := by
  split at h
  · rcases List.mem_append.mp h with h | h
    · exact Or.inl (List.erase_subset _ _ h)
    · exact Or.inr h
  · exact Or.inl h

theorem mem_append_step (a : Role) (l e : List Role) (c : Prop) [Decidable c] (h : a ∈ l) :
    a ∈ (if c then l ++ e else l) := by
  split
  · exact List.mem_append_left e h
  · exact h

theorem mem_append_step_intro (a : Role) (l e : List Role) (c : Prop) [Decidable c]
    (h : a ∈ (if c then l ++ e else l)) : a ∈ l ∨ a ∈ e := by
  split at h
  · exact List.mem_append.mp h
  · exact Or.inl h

theorem mem_expandRolesSimple_of_mem (a : Role) (l : List Role)
    (h1 : a ≠ "controller") (h2 : a ≠ "servers") (h : a ∈ l) :
    a ∈ expandRolesSimple l := by
  simp only [expandRolesSimple, mem_pyDedup]
  exact mem_erase_step a "servers" _ serversExpansion h2
    (mem_erase_step a "controller" l controllerExpansion h1 h)

theorem mem_of_mem_expandRolesSimple (a : Role) (l : List Role)
    (h : a ∈ expandRolesSimple l) :
    a ∈ l ∨ a ∈ controllerExpansion ∨ a ∈ serversExpansion := by
  simp only [expandRolesSimple, mem_pyDedup] at h
  rcases mem_erase_step_intro a "servers" _ serversExpansion h with h | h
  · rcases mem_erase_step_intro a "controller" l controllerExpansion h with h | h
    · exact Or.inl h
    · exact Or.inr (Or.inl h)
  · exact Or.inr (Or.inr h)

theorem mem_expandRolesAdvanced_of_mem (a : Role) (l : List Role)
    (h1 : a ≠ "master") (h : a ∈ l) : a ∈ expandRolesAdvanced l := by
  simp only [expandRolesAdvanced, mem_pyDedup]
  exact mem_append_step a _ ["memcache"] _
    (mem_append_step a _ ["load_balancer"] _
      (mem_erase_step a "master" l ["shadow", "load_balancer"] h1 h))

theorem mem_of_mem_expandRolesAdvanced (a : Role) (l : List Role)
    (h : a ∈ expandRolesAdvanced l) :
    a ∈ l ∨ a = "shadow" ∨ a = "load_balancer" ∨ a = "memcache" := by
  simp only [expandRolesAdvanced, mem_pyDedup] at h
  rcases mem_append_step_intro a _ ["memcache"] _ h with h | h
  · rcases mem_append_step_intro a _ ["load_balancer"] _ h with h | h
    · rcases mem_erase_step_intro a "master" l ["shadow", "load_balancer"] h with h | h
      · exact Or.inl h
      · simp only [List.mem_cons, List.mem_singleton] at h
        rcases h with h | h
        · exact Or.inr (Or.inl h)
        · simp only [List.mem_cons, List.not_mem_nil, or_false] at h
          exact Or.inr (Or.inr (Or.inl h))
    · simp only [List.mem_singleton] at h
      exact Or.inr (Or.inr (Or.inl h))
  · simp only [List.mem_singleton] at h
    exact Or.inr (Or.inr (Or.inr h))

theorem shadow_mem_expandRolesAdvanced (l : List Role) :
    "shadow" ∈ expandRolesAdvanced l ↔ ("shadow" ∈ l ∨ "master" ∈ l) := by
  simp only [expandRolesAdvanced, mem_pyDedup]
  constructor
  · intro h
    rcases mem_append_step_intro _ _ _ _ h with h | h
    · rcases mem_append_step_intro _ _ _ _ h with h | h
      · by_cases hm : "master" ∈ l
        · exact Or.inr hm
        · rw [if_neg hm] at h
          exact Or.inl h
      · simp at h
    · simp at h
  · intro h
    by_cases hm : "master" ∈ l
    · have hmem : "shadow" ∈
          (if "master" ∈ l then l.erase "master" ++ ["shadow", "load_balancer"] else l) := by
        rw [if_pos hm]
        simp
      exact mem_append_step _ _ _ _ (mem_append_step _ _ _ _ hmem)
    · rcases h with h | h
      · refine mem_append_step _ _ _ _ (mem_append_step _ _ _ _ ?_)
        rw [if_neg hm]
        exact h
      · exact absurd h hm

theorem master_not_mem_expandRolesAdvanced (roles : List Role) (r : Role)
    (hm : "master" ∉ roles) : "master" ∉ expandRolesAdvanced (roles ++ [r]) := by
  simp only [expandRolesAdvanced, mem_pyDedup]
  intro h
  rcases mem_append_step_intro _ _ _ _ h with h | h
  · rcases mem_append_step_intro _ _ _ _ h with h | h
    · by_cases hr : r = "master"
      · subst hr
        have hin : "master" ∈ roles ++ ["master"] := by simp
        rw [if_pos hin, List.erase_append_right _ hm] at h
        simp only [List.erase_cons_head] at h
        rcases List.mem_append.mp h with h | h
        · rcases List.mem_append.mp h with h | h
          · exact hm h
          · exact absurd h (List.not_mem_nil _)
        · simp at h
      · have hnin : "master" ∉ roles ++ [r] := by
          intro hx
          rcases List.mem_append.mp hx with hx | hx
          · exact hm hx
          · simp only [List.mem_singleton] at hx
            exact hr hx.symm
        rw [if_neg hnin] at h
        exact hnin h
    · simp at h
  · simp at h

/-! Node-level corollaries of the expansion lemmas. -/

theorem is_role_iff (n : PyNode) (r : Role) : is_role n r = true ↔ r ∈ n.roles := by
  simp [is_role]

theorem roles_addRoleA (n : PyNode) (r : Role) :
    (addRoleA n r).roles = expandRolesAdvanced (n.roles ++ [r]) := rfl

theorem masterFree_addRoleA (n : PyNode) (r : Role) (hm : "master" ∉ n.roles) :
    "master" ∉ (addRoleA n r).roles :=
  master_not_mem_expandRolesAdvanced n.roles r hm

theorem mem_addRoleA_of_mem (q : Role) (n : PyNode) (r : Role) (hq : q ≠ "master")
    (h : q ∈ n.roles) : q ∈ (addRoleA n r).roles :=
  mem_expandRolesAdvanced_of_mem q (n.roles ++ [r]) hq (List.mem_append_left [r] h)

theorem mem_addRoleA_intro (q : Role) (n : PyNode) (r : Role)
    (h : q ∈ (addRoleA n r).roles) :
    q ∈ n.roles ∨ q = r ∨ q = "shadow" ∨ q = "load_balancer" ∨ q = "memcache" := by
  rcases mem_of_mem_expandRolesAdvanced q (n.roles ++ [r]) h with h | h | h | h
  · rcases List.mem_append.mp h with h | h
    · exact Or.inl h
    · simp only [List.mem_singleton] at h
      exact Or.inr (Or.inl h)
  · exact Or.inr (Or.inr (Or.inl h))
  · exact Or.inr (Or.inr (Or.inr (Or.inl h)))
  · exact Or.inr (Or.inr (Or.inr (Or.inr h)))

theorem shadow_mem_addRoleA (n : PyNode) (r : Role) (hm : "master" ∉ n.roles)
    (hr1 : r ≠ "master") (hr2 : r ≠ "shadow") :
    ("shadow" ∈ (addRoleA n r).roles ↔ "shadow" ∈ n.roles) := by
  rw [roles_addRoleA, shadow_mem_expandRolesAdvanced]
  constructor
  · rintro (h | h)
    · rcases List.mem_append.mp h with h | h
      · exact h
      · simp only [List.mem_singleton] at h
        exact absurd h.symm hr2
    · rcases List.mem_append.mp h with h | h
      · exact absurd h hm
      · simp only [List.mem_singleton] at h
        exact absurd h.symm hr1
  · intro h
    exact Or.inl (List.mem_append_left _ h)

theorem mem_addRoleA_iff_of_ne (q : Role) (n : PyNode) (r : Role)
    (hq1 : q ≠ "master") (hq2 : q ≠ r) (hq3 : q ≠ "shadow") (hq4 : q ≠ "load_balancer")
    (hq5 : q ≠ "memcache") : (q ∈ (addRoleA n r).roles ↔ q ∈ n.roles) := by
  constructor
  · intro h
    rcases mem_addRoleA_intro q n r h with h | h | h | h | h
    · exact h
    · exact absurd h hq2
    · exact absurd h hq3
    · exact absurd h hq4
    · exact absurd h hq5
  · exact mem_addRoleA_of_mem q n r hq1

theorem mem_addRoleS_of_mem (q : Role) (n : PyNode) (r : Role) (h1 : q ≠ "controller")
    (h2 : q ≠ "servers") (h : q ∈ n.roles) : q ∈ (addRoleS n r).roles :=
  mem_expandRolesSimple_of_mem q (n.roles ++ [r]) h1 h2 (List.mem_append_left [r] h)

/-! The role counting of `count_roles` picks each node's first primary-tier
role in role-list order. -/

theorem countNode_eq_findFirst (roles : List Role) (acc : RoleCounts) :
    countNode roles acc =
      (match roles.find? (fun r => decide (r ∈ primaryTierRoles)) with
       | some r => bumpCount acc r
       | none => acc) := by
  induction roles with
  | nil => rfl
  | cons r rest ih =>
    by_cases hm : r ∈ primaryTierRoles
    · rw [List.find?_cons_of_pos _ (by simpa using hm)]
      simp only [primaryTierRoles, List.mem_cons, List.not_mem_nil, or_false] at hm
      rcases hm with rfl | rfl | rfl | rfl | rfl <;> simp [countNode, bumpCount]
    · rw [List.find?_cons_of_neg _ (by simpa using hm), ← ih]
      simp only [primaryTierRoles, List.mem_cons, List.not_mem_nil, or_false, not_or] at hm
      obtain ⟨h1, h2, h3, h4, h5⟩ := hm
      simp [countNode, h1, h2, h3, h4, h5]

theorem count_roles_foldl_eq (nodes : List PyNode) (acc : RoleCounts) :
    nodes.foldl (fun acc n => countNode n.roles acc) acc =
      nodes.foldl (fun acc n =>
        match n.roles.find? (fun r => decide (r ∈ primaryTierRoles)) with
        | some r => bumpCount acc r
        | none => acc) acc := by
  induction nodes generalizing acc with
  | nil => rfl
  | cons n rest ih => rw [List.foldl_cons, List.foldl_cons, countNode_eq_findFirst, ih]

theorem count_roles_eq_firstMatch (nodes : List PyNode) :
    count_roles nodes = countRolesFirstMatch nodes :=
  count_roles_foldl_eq nodes zeroCounts

theorem roleCounts_eq_iff (c : RoleCounts) (a b d e : Nat) :
    c = { login := a, appengine := b, database := d, zookeeper := e } ↔
      (c.login = a ∧ c.appengine = b ∧ c.database = d ∧ c.zookeeper = e) := by
  cases c
  simp [RoleCounts.mk.injEq]

/-- C2: the replication validator behaves exactly as the claim describes:
Invalid without a database node; a defaulted factor of 3 above three
database nodes, else the database-node count; Invalid when the factor
exceeds the count; the divisibility rejection exactly for the `"mysql"`
backend; Valid otherwise. Stated as equality with a model transcribed from
the claim, for any requested factor that is absent or positive. -/
theorem claim_C2_replication_validator (nodes : List PyNode) (requested : Option Nat)
    (backend : String) (hreq : requested = none ∨ ∃ r, requested = some (r + 1)) :
    is_database_replication_valid nodes requested backend =
      replicationClaimModel nodes requested backend := by
  rcases hreq with rfl | ⟨r, rfl⟩
  · simp [is_database_replication_valid, replicationClaimModel, natFalsy]
  · simp [is_database_replication_valid, replicationClaimModel, natFalsy]

theorem claim_C2_replication_validator_witness :
    is_database_replication_valid
        [{ id := "1.1.1.1", cloud := "not-cloud", roles := ["database"] }] none "mysql" =
      replicationClaimModel
        [{ id := "1.1.1.1", cloud := "not-cloud", roles := ["database"] }] none "mysql" :=
  claim_C2_replication_validator _ none "mysql" (Or.inl rfl)

/-- C3: validation does not always return a result value: on a simple-dialect
description with a null role entry (for example `{controller: null}`), the
guard `if not ips: next` is a no-op (`next` is not `continue`), Python then
iterates `None`, and a `TypeError` escapes `is_valid_simple_format` and
`is_valid`. -/
theorem claim_C3_exception_escapes :
    is_valid_simple_format [] pPlain (some yNullEntry) =
      .error (.typeError "NoneType object is not iterable") ∧
    is_valid [] pPlain (some yNullEntry) =
      .error (.typeError "NoneType object is not iterable") :=
  ⟨rfl, rfl⟩

theorem count_roles_real_foldl_eq (nodes : List PyNode) (acc : RoleCounts) :
    nodes.foldl (fun acc n => countNode (pyListSet n.roles) acc) acc =
      nodes.foldl (fun acc n =>
        match (pyListSet n.roles).find? (fun r => decide (r ∈ primaryTierRoles)) with
        | some r => bumpCount acc r
        | none => acc) acc := by
  induction nodes generalizing acc with
  | nil => rfl
  | cons n rest ih => rw [List.foldl_cons, List.foldl_cons, countNode_eq_findFirst, ih]

theorem count_roles_real_eq_firstMatch (nodes : List PyNode) :
    count_roles_real nodes = countRolesFirstMatchReal nodes :=
  count_roles_real_foldl_eq nodes zeroCounts

/-- C4 counterexample: a validated 4-node advanced node set whose
priority-order counts are login 1, appengine 1, database 1, zookeeper 1 (so
the claim says it is a supported shape), yet the recognizer, acting on the
stored role lists (CPython set-iteration order), reports it unsupported:
the node carrying appengine and zookeeper stores zookeeper (hash slot 3)
before appengine (hash slot 6) and is counted as a zookeeper node, not the
appengine node the claimed priority order would make it. The last two
conjuncts certify that the slot-order model is exact here: every role set
is a permutation of its slot-order listing, has at most five elements (no
table resize) and occupies pairwise distinct slots (no probing, so the
stored order is slot order whatever the insertion order). -/
theorem claim_C4_counterexample :
    advResultOk [] pPlain yC4 = true ∧
    (advResultNodes [] pPlain yC4).length = 4 ∧
    countRolesPriority (advResultNodes [] pPlain yC4) =
      { login := 1, appengine := 1, database := 1, zookeeper := 1 } ∧
    is_supported_advanced_format_real (advResultNodes [] pPlain yC4) = false ∧
    (advResultNodes [] pPlain yC4).all
      (fun n => decide (n.roles.Perm (pyListSet n.roles)) && decide (n.roles.length ≤ 5)) = true ∧
    (advResultNodes [] pPlain yC4).all
      (fun n => decide ((n.roles.map (fun r => py2hash r % 8)).Nodup)) = true :=
  ⟨rfl, rfl, rfl, rfl, rfl, rfl⟩

/-- C4 amended: the recognizer classifies exactly the 1-node sets, and the
4-node and 8-node sets whose counts are 1/1/1/1 and 1/2/2/3 respectively,
counting each node's first primary-tier role in the order of its stored
role list — the CPython set-iteration (ascending hash-slot) order left by
the last expansion — not in a fixed priority order. -/
theorem claim_C4_amended (nodes : List PyNode) :
    is_supported_advanced_format_real nodes = true ↔
      (nodes.length = 1 ∨
       (nodes.length = 4 ∧ countRolesFirstMatchReal nodes =
          { login := 1, appengine := 1, database := 1, zookeeper := 1 }) ∨
       (nodes.length = 8 ∧ countRolesFirstMatchReal nodes =
          { login := 1, appengine := 2, database := 2, zookeeper := 3 })) := by
  rw [← count_roles_real_eq_firstMatch]
  unfold is_supported_advanced_format_real
  split_ifs with h1 h4 h8
  · simp [h1]
  · simp [h1, h4, roleCounts_eq_iff]
  · simp [h1, h4, h8, roleCounts_eq_iff]
  · simp [h1, h4, h8]

/-- C6 counterexample: the description `{controller: foo, servers: foo}`
duplicates the host id `foo`, yet simple validation reports the id-shape
error `foo must be an IP address`, not the duplicate-IP message: the
duplicate check runs only after every node passes the id-shape check. -/
theorem claim_C6_counterexample :
    ¬ (flattenVals yC6).Nodup ∧
    "foo must be an IP address" ≠ DUPLICATE_IPS ∧
    is_valid_simple_format [] pPlain (some yC6) =
      .ok { check := invalidR "foo must be an IP address", nodes := [], replication := none,
            minVms := none, maxVms := none } :=
  ⟨by decide, by decide, rfl⟩

/-- C10 counterexample: a description containing the key `db_master` is not
classified as advanced (`db_master` is not an advanced-format key), so
`is_valid` rejects it as neither dialect instead of processing it as an
advanced deployment. -/
theorem claim_C10_counterexample :
    is_advanced_format (some yC10) = false ∧ is_valid [] pPlain (some yC10) = .ok false :=
  ⟨rfl, rfl⟩

/-! Idempotence of the two expansion functions on duplicate-free role sets. -/

theorem controller_not_mem_expandRolesSimple (l : List Role) (hn : l.Nodup) :
    "controller" ∉ expandRolesSimple l := by
  simp only [expandRolesSimple, mem_pyDedup]
  intro h
  rcases mem_erase_step_intro _ "servers" _ serversExpansion h with h | h
  · by_cases hc : "controller" ∈ l
    · rw [if_pos hc] at h
      rcases List.mem_append.mp h with h | h
      · exact ((List.Nodup.mem_erase_iff hn).mp h).1 rfl
      · simp [controllerExpansion] at h
    · rw [if_neg hc] at h
      exact hc h
  · simp [serversExpansion] at h

theorem servers_not_mem_expandRolesSimple (l : List Role) (hn : l.Nodup) :
    "servers" ∉ expandRolesSimple l := by
  simp only [expandRolesSimple, mem_pyDedup]
  intro h
  by_cases hs : "servers" ∈ (if "controller" ∈ l then
      l.erase "controller" ++ controllerExpansion else l)
  · rw [if_pos hs] at h
    rcases List.mem_append.mp h with h | h
    · have hle : ((if "controller" ∈ l then
          l.erase "controller" ++ controllerExpansion else l).count "servers") ≤ 1 := by
        by_cases hc : "controller" ∈ l
        · rw [if_pos hc, List.count_append]
          have h0 : controllerExpansion.count "servers" = 0 := by decide
          rw [h0, List.count_erase_of_ne (by decide)]
          simpa using List.nodup_iff_count_le_one.mp hn "servers"
        · rw [if_neg hc]
          exact List.nodup_iff_count_le_one.mp hn "servers"
      have heq := List.count_erase_self "servers"
        (if "controller" ∈ l then l.erase "controller" ++ controllerExpansion else l)
      have hpos : 0 < ((if "controller" ∈ l then
          l.erase "controller" ++ controllerExpansion else l).erase "servers").count "servers" :=
        List.count_pos_iff.mpr h
      omega
    · simp [serversExpansion] at h
  · rw [if_neg hs] at h
    exact hs h

theorem expandRolesSimple_nodup (l : List Role) : (expandRolesSimple l).Nodup := by
  simp only [expandRolesSimple]
  exact pyDedup_nodup _

theorem expandRolesAdvanced_nodup (l : List Role) : (expandRolesAdvanced l).Nodup := by
  simp only [expandRolesAdvanced]
  exact pyDedup_nodup _

theorem expandRolesSimple_idem (l : List Role) (hn : l.Nodup) :
    expandRolesSimple (expandRolesSimple l) = expandRolesSimple l := by
  have h1 := controller_not_mem_expandRolesSimple l hn
  have h2 := servers_not_mem_expandRolesSimple l hn
  conv_lhs => rw [expandRolesSimple]
  rw [if_neg h1, if_neg h2]
  exact pyDedup_eq_self_of_nodup _ (expandRolesSimple_nodup l)

theorem master_not_mem_expandRolesAdvanced_nodup (l : List Role) (hn : l.Nodup) :
    "master" ∉ expandRolesAdvanced l := by
  simp only [expandRolesAdvanced, mem_pyDedup]
  intro h
  rcases mem_append_step_intro _ _ _ _ h with h | h
  · rcases mem_append_step_intro _ _ _ _ h with h | h
    · by_cases hm : "master" ∈ l
      · rw [if_pos hm] at h
        rcases List.mem_append.mp h with h | h
        · exact ((List.Nodup.mem_erase_iff hn).mp h).1 rfl
        · simp at h
      · rw [if_neg hm] at h
        exact hm h
    · simp at h
  · simp at h

theorem lb_of_login_expandRolesAdvanced (l : List Role)
    (h : "login" ∈ expandRolesAdvanced l) :
    "load_balancer" ∈ expandRolesAdvanced l := by
  simp only [expandRolesAdvanced, mem_pyDedup] at h ⊢
  have hlogin1 : "login" ∈ (if "master" ∈ l then
      l.erase "master" ++ ["shadow", "load_balancer"] else l) := by
    rcases mem_append_step_intro _ _ _ _ h with h2 | h2
    · rcases mem_append_step_intro _ _ _ _ h2 with h3 | h3
      · exact h3
      · simp at h3
    · simp at h2
  have hlb : "load_balancer" ∈ (if "login" ∈ (if "master" ∈ l then
      l.erase "master" ++ ["shadow", "load_balancer"] else l) then
        (if "master" ∈ l then l.erase "master" ++ ["shadow", "load_balancer"] else l) ++
          ["load_balancer"]
      else (if "master" ∈ l then l.erase "master" ++ ["shadow", "load_balancer"] else l)) := by
    rw [if_pos hlogin1]
    simp
  exact mem_append_step _ _ _ _ hlb

theorem memcache_of_database_expandRolesAdvanced (l : List Role)
    (h : "database" ∈ expandRolesAdvanced l) :
    "memcache" ∈ expandRolesAdvanced l := by
  simp only [expandRolesAdvanced, mem_pyDedup] at h ⊢
  have hdb2 : "database" ∈ (if "login" ∈ (if "master" ∈ l then
      l.erase "master" ++ ["shadow", "load_balancer"] else l) then
        (if "master" ∈ l then l.erase "master" ++ ["shadow", "load_balancer"] else l) ++
          ["load_balancer"]
      else (if "master" ∈ l then l.erase "master" ++ ["shadow", "load_balancer"] else l)) := by
    rcases mem_append_step_intro _ _ _ _ h with h2 | h2
    · exact h2
    · simp at h2
  rw [if_pos hdb2]
  simp

theorem expandRolesAdvanced_idem (l : List Role) (hn : l.Nodup) :
    expandRolesAdvanced (expandRolesAdvanced l) = expandRolesAdvanced l := by
  have hm := master_not_mem_expandRolesAdvanced_nodup l hn
  have hR := expandRolesAdvanced_nodup l
  conv_lhs => rw [expandRolesAdvanced]
  rw [if_neg hm]
  by_cases hl : "login" ∈ expandRolesAdvanced l
  · rw [if_pos hl]
    have hlb := lb_of_login_expandRolesAdvanced l hl
    by_cases hd : "database" ∈ expandRolesAdvanced l
    · have hd2 : "database" ∈ expandRolesAdvanced l ++ ["load_balancer"] :=
        List.mem_append_left _ hd
      rw [if_pos hd2, List.append_assoc]
      rw [pyDedup_append_subset (expandRolesAdvanced l) (["load_balancer"] ++ ["memcache"])]
      · exact pyDedup_eq_self_of_nodup _ hR
      · intro a ha
        rcases List.mem_append.mp ha with ha | ha
        · simp only [List.mem_singleton] at ha
          subst ha
          exact hlb
        · simp only [List.mem_singleton] at ha
          subst ha
          exact memcache_of_database_expandRolesAdvanced l hd
    · have hd2 : "database" ∉ expandRolesAdvanced l ++ ["load_balancer"] := by
        intro hx
        rcases List.mem_append.mp hx with hx | hx
        · exact hd hx
        · simp at hx
      rw [if_neg hd2]
      rw [pyDedup_append_subset (expandRolesAdvanced l) ["load_balancer"]]
      · exact pyDedup_eq_self_of_nodup _ hR
      · intro a ha
        simp only [List.mem_singleton] at ha
        subst ha
        exact hlb
  · rw [if_neg hl]
    by_cases hd : "database" ∈ expandRolesAdvanced l
    · rw [if_pos hd]
      rw [pyDedup_append_subset (expandRolesAdvanced l) ["memcache"]]
      · exact pyDedup_eq_self_of_nodup _ hR
      · intro a ha
        simp only [List.mem_singleton] at ha
        subst ha
        exact memcache_of_database_expandRolesAdvanced l hd
    · rw [if_neg hd]
      exact pyDedup_eq_self_of_nodup _ hR

/-- C9: role expansion is idempotent for both node variants on duplicate-free
role sets: a second application of either expansion changes nothing. -/
theorem claim_C9_expansion_idempotent (S : List Role) (hn : S.Nodup) :
    expandRolesSimple (expandRolesSimple S) = expandRolesSimple S ∧
    expandRolesAdvanced (expandRolesAdvanced S) = expandRolesAdvanced S :=
  ⟨expandRolesSimple_idem S hn, expandRolesAdvanced_idem S hn⟩

theorem claim_C9_expansion_idempotent_witness :
    expandRolesSimple (expandRolesSimple ["controller", "master", "login", "database"]) =
      expandRolesSimple ["controller", "master", "login", "database"] ∧
    expandRolesAdvanced (expandRolesAdvanced ["controller", "master", "login", "database"]) =
      expandRolesAdvanced ["controller", "master", "login", "database"] :=
  claim_C9_expansion_idempotent ["controller", "master", "login", "database"] (by decide)

/-! Hash lemmas and build-loop invariants for the advanced builder. -/

theorem mem_hashSet_cases (h : Hash) (ip : String) (n : PyNode) (pr : String × PyNode)
    (hm : pr ∈ hashSet h ip n) : pr ∈ h ∨ pr = (ip, n) := by
  induction h with
  | nil => simpa [hashSet] using hm
  | cons kv rest ih =>
    obtain ⟨k, v⟩ := kv
    simp only [hashSet] at hm
    split at hm
    · next hk =>
      rcases List.mem_cons.mp hm with rfl | hmem
      · exact Or.inr (by rw [hk])
      · exact Or.inl (List.mem_cons_of_mem _ hmem)
    · rcases List.mem_cons.mp hm with rfl | hmem
      · exact Or.inl (List.mem_cons_self _ _)
      · rcases ih hmem with hmem2 | rfl
        · exact Or.inl (List.mem_cons_of_mem _ hmem2)
        · exact Or.inr rfl

theorem hashGet_mem (h : Hash) (ip : String) (n : PyNode)
    (hg : hashGet h ip = some n) : (ip, n) ∈ h := by
  induction h with
  | nil => simp [hashGet] at hg
  | cons kv rest ih =>
    obtain ⟨k, v⟩ := kv
    simp only [hashGet] at hg
    split at hg
    · next hk =>
      subst hk
      injection hg with hg
      subst hg
      exact List.mem_cons_self _ _
    · exact List.mem_cons_of_mem _ (ih hg)

theorem getOrCreate_prop (P : PyNode → Prop) (h : Hash) (ip : String)
    (hinv : ∀ pr ∈ h, P pr.2) (hfresh : ∀ a b, P (mkAdvancedNode a b)) :
    P (getOrCreate h ip) := by
  rcases hg : hashGet h ip with _ | n
  · simp only [getOrCreate, hg]
    exact hfresh _ _
  · simp only [getOrCreate, hg]
    exact hinv (ip, n) (hashGet_mem h ip n hg)

theorem advProcessHost_pres (P : PyNode → Prop)
    (hP : ∀ n r, r ≠ "database" → P n → P (addRoleA n r))
    (hfresh : ∀ a b, P (mkAdvancedNode a b))
    (role : String) (i : Nat) (h : Hash) (ip : String)
    (hinv : ∀ pr ∈ h, P pr.2) :
    ∀ pr ∈ advProcessHost role i h ip, P pr.2 := by
  intro pr hpr
  simp only [advProcessHost] at hpr
  rcases mem_hashSet_cases _ _ _ _ hpr with hpr2 | rfl
  · exact hinv pr hpr2
  · have hbase : P (getOrCreate h ip) := getOrCreate_prop P h ip hinv hfresh
    show P (advDispatch role i (getOrCreate h ip))
    unfold advDispatch
    split
    · unfold addDbRoleA
      split
      · exact hP _ _ (by decide) hbase
      · exact hP _ _ (by decide) hbase
    · split
      · exact hP _ _ (by decide) (hP _ _ (by decide) hbase)
      · split
        · unfold addRabbitRoleA
          split
          · exact hP _ _ (by decide) (hP _ _ (by decide) hbase)
          · exact hP _ _ (by decide) (hP _ _ (by decide) hbase)
        · next hne1 hne2 hne3 => exact hP _ _ hne1 hbase

theorem advProcessHosts_pres (P : PyNode → Prop)
    (hP : ∀ n r, r ≠ "database" → P n → P (addRoleA n r))
    (hfresh : ∀ a b, P (mkAdvancedNode a b)) (role : String) :
    ∀ (hosts : List String) (i : Nat) (h : Hash),
      (∀ pr ∈ h, P pr.2) → ∀ pr ∈ advProcessHosts role i h hosts, P pr.2 := by
  intro hosts
  induction hosts with
  | nil => intro i h hinv pr hpr; exact hinv pr hpr
  | cons ip rest ih =>
    intro i h hinv pr hpr
    exact ih (i + 1) (advProcessHost role i h ip)
      (advProcessHost_pres P hP hfresh role i h ip hinv) pr hpr

theorem advLoop_pres (P : PyNode → Prop)
    (hP : ∀ n r, r ≠ "database" → P n → P (addRoleA n r))
    (hfresh : ∀ a b, P (mkAdvancedNode a b)) :
    ∀ (d : Yaml) (h0 h1 : Hash), advLoop h0 d = .ok h1 →
      (∀ pr ∈ h0, P pr.2) → ∀ pr ∈ h1, P pr.2 := by
  intro d
  induction d with
  | nil =>
    intro h0 h1 hl hinv
    simp only [advLoop] at hl
    injection hl with hl
    subst hl
    exact hinv
  | cons kv rest ih =>
    intro h0 h1 hl hinv
    obtain ⟨role, ips⟩ := kv
    simp only [advLoop] at hl
    rcases hhosts : hostsOf ips with _ | hosts
    · rw [hhosts] at hl
      exact absurd hl (by simp)
    · rw [hhosts] at hl
      exact ih (advProcessHosts role 0 h0 hosts) h1 hl
        (advProcessHosts_pres P hP hfresh role hosts 0 h0 hinv)

theorem mkAdvancedNode_roles (a b : String) : (mkAdvancedNode a b).roles = [] := rfl

theorem advLoop_values_masterFree (d : Yaml) (h1 : Hash) (hl : advLoop [] d = .ok h1) :
    ∀ n ∈ h1.map Prod.snd, "master" ∉ n.roles := by
  intro n hn
  rcases List.mem_map.mp hn with ⟨pr, hpr, rfl⟩
  refine advLoop_pres (fun n => "master" ∉ n.roles)
    (fun n r _ hm => masterFree_addRoleA n r hm)
    (fun a b => by
      show "master" ∉ (mkAdvancedNode a b).roles
      rw [mkAdvancedNode_roles]
      exact List.not_mem_nil _)
    d [] h1 hl (by intro pr hpr; exact absurd hpr (List.not_mem_nil _)) pr hpr

/-! Counting lemmas for the promotion stages. -/

theorem countRole_cons (n : PyNode) (l : List PyNode) (r : Role) :
    countRole (n :: l) r = (if is_role n r then 1 else 0) + countRole l r := by
  simp only [countRole, List.filter_cons]
  split <;> simp [Nat.add_comm]

theorem countRole_map_congr (l : List PyNode) (f : PyNode → PyNode) (r : Role)
    (hf : ∀ n ∈ l, ((r ∈ (f n).roles) ↔ (r ∈ n.roles))) :
    countRole (l.map f) r = countRole l r := by
  induction l with
  | nil => rfl
  | cons n rest ih =>
    rw [List.map_cons, countRole_cons, countRole_cons,
      ih (fun m hm => hf m (List.mem_cons_of_mem n hm))]
    have hb : is_role (f n) r = is_role n r :=
      decide_eq_decide.mpr (hf n (List.mem_cons_self n rest))
    rw [hb]

theorem countRole_updateIdx_congr (l : List PyNode) (i : Nat) (f : PyNode → PyNode) (r : Role)
    (hf : ∀ n ∈ l, ((r ∈ (f n).roles) ↔ (r ∈ n.roles))) :
    countRole (updateIdx f l i) r = countRole l r := by
  induction l generalizing i with
  | nil => rfl
  | cons n rest ih =>
    cases i with
    | zero =>
      rw [show updateIdx f (n :: rest) 0 = f n :: rest from rfl, countRole_cons, countRole_cons]
      have hb : is_role (f n) r = is_role n r :=
        decide_eq_decide.mpr (hf n (List.mem_cons_self n rest))
      rw [hb]
    | succ j =>
      rw [show updateIdx f (n :: rest) (j + 1) = n :: updateIdx f rest j from rfl,
        countRole_cons, countRole_cons,
        ih j (fun m hm => hf m (List.mem_cons_of_mem n hm))]

theorem forall_updateIdx {P : PyNode → Prop} (l : List PyNode) (i : Nat) (f : PyNode → PyNode)
    (hl : ∀ n ∈ l, P n) (hf : ∀ n ∈ l, P (f n)) : ∀ n ∈ updateIdx f l i, P n := by
  induction l generalizing i with
  | nil => intro n hn; simp [updateIdx] at hn
  | cons m rest ih =>
    cases i with
    | zero =>
      intro n hn
      rcases List.mem_cons.mp hn with h | h
      · rw [h]
        exact hf m (List.mem_cons_self m rest)
      · exact hl n (List.mem_cons_of_mem _ h)
    | succ j =>
      intro n hn
      rcases List.mem_cons.mp hn with h | h
      · rw [h]
        exact hl m (List.mem_cons_self m rest)
      · exact ih j (fun x hx => hl x (List.mem_cons_of_mem _ hx))
          (fun x hx => hf x (List.mem_cons_of_mem _ hx)) n h

theorem forall_map {P : PyNode → Prop} (l : List PyNode) (f : PyNode → PyNode)
    (hf : ∀ n ∈ l, P (f n)) : ∀ n ∈ l.map f, P n := by
  intro n hn
  rcases List.mem_map.mp hn with ⟨m, hm, rfl⟩
  exact hf m hm

/-! The promotion stages preserve the shadow count and master-freeness. -/

theorem advPromote1_shadow (nodes : List PyNode) (mi : Nat)
    (hm : ∀ n ∈ nodes, "master" ∉ n.roles) :
    countRole (advPromote1 nodes mi) "shadow" = countRole nodes "shadow" := by
  unfold advPromote1
  split
  · exact countRole_updateIdx_congr nodes mi _ "shadow" (fun n hn =>
      shadow_mem_addRoleA n "login" (hm n hn) (by decide) (by decide))
  · rfl

theorem advPromote1_masterFree (nodes : List PyNode) (mi : Nat)
    (hm : ∀ n ∈ nodes, "master" ∉ n.roles) :
    ∀ n ∈ advPromote1 nodes mi, "master" ∉ n.roles := by
  unfold advPromote1
  split
  · exact forall_updateIdx nodes mi _ hm (fun n hn => masterFree_addRoleA n _ (hm n hn))
  · exact hm

theorem advPromote2_shadow (nodes : List PyNode)
    (hm : ∀ n ∈ nodes, "master" ∉ n.roles) :
    countRole (advPromote2 nodes) "shadow" = countRole nodes "shadow" := by
  unfold advPromote2
  split
  · refine countRole_map_congr nodes _ "shadow" (fun n hn => ?_)
    by_cases ha : is_role n "appengine" = true
    · rw [if_pos ha]
      exact shadow_mem_addRoleA n "memcache" (hm n hn) (by decide) (by decide)
    · rw [if_neg ha]
  · rfl

theorem advPromote2_masterFree (nodes : List PyNode)
    (hm : ∀ n ∈ nodes, "master" ∉ n.roles) :
    ∀ n ∈ advPromote2 nodes, "master" ∉ n.roles := by
  unfold advPromote2
  split
  · refine forall_map nodes _ (fun n hn => ?_)
    by_cases ha : is_role n "appengine" = true
    · rw [if_pos ha]
      exact masterFree_addRoleA n _ (hm n hn)
    · rw [if_neg ha]
      exact hm n hn
  · exact hm

theorem advPromote3_shadow (nodes : List PyNode) (mi : Nat)
    (hm : ∀ n ∈ nodes, "master" ∉ n.roles) :
    countRole (advPromote3 nodes mi) "shadow" = countRole nodes "shadow" := by
  unfold advPromote3
  split
  · exact countRole_updateIdx_congr nodes mi _ "shadow" (fun n hn =>
      shadow_mem_addRoleA n "zookeeper" (hm n hn) (by decide) (by decide))
  · rfl

theorem advPromote3_masterFree (nodes : List PyNode) (mi : Nat)
    (hm : ∀ n ∈ nodes, "master" ∉ n.roles) :
    ∀ n ∈ advPromote3 nodes mi, "master" ∉ n.roles := by
  unfold advPromote3
  split
  · exact forall_updateIdx nodes mi _ hm (fun n hn => masterFree_addRoleA n _ (hm n hn))
  · exact hm

theorem advPromote4_shadow (nodes : List PyNode) (mi : Nat)
    (hm : ∀ n ∈ nodes, "master" ∉ n.roles) :
    countRole (advPromote4 nodes mi) "shadow" = countRole nodes "shadow" := by
  unfold advPromote4
  split
  · refine countRole_updateIdx_congr nodes mi _ "shadow" (fun n hn => ?_)
    exact (shadow_mem_addRoleA (addRoleA n "rabbitmq") "rabbitmq_master"
        (masterFree_addRoleA n _ (hm n hn)) (by decide) (by decide)).trans
      (shadow_mem_addRoleA n "rabbitmq" (hm n hn) (by decide) (by decide))
  · rfl

theorem advPromote4_masterFree (nodes : List PyNode) (mi : Nat)
    (hm : ∀ n ∈ nodes, "master" ∉ n.roles) :
    ∀ n ∈ advPromote4 nodes mi, "master" ∉ n.roles := by
  unfold advPromote4
  split
  · exact forall_updateIdx nodes mi _ hm (fun n hn =>
      masterFree_addRoleA _ _ (masterFree_addRoleA n _ (hm n hn)))
  · exact hm

theorem advPromote5_shadow (nodes : List PyNode)
    (hm : ∀ n ∈ nodes, "master" ∉ n.roles) :
    countRole (advPromote5 nodes) "shadow" = countRole nodes "shadow" := by
  unfold advPromote5
  refine countRole_map_congr nodes _ "shadow" (fun n hn => ?_)
  by_cases ha : (is_role n "appengine" && !(is_role n "rabbitmq")) = true
  · rw [if_pos ha]
    exact shadow_mem_addRoleA n "rabbitmq_slave" (hm n hn) (by decide) (by decide)
  · rw [if_neg ha]

theorem advPromote5_masterFree (nodes : List PyNode)
    (hm : ∀ n ∈ nodes, "master" ∉ n.roles) :
    ∀ n ∈ advPromote5 nodes, "master" ∉ n.roles := by
  unfold advPromote5
  refine forall_map nodes _ (fun n hn => ?_)
  by_cases ha : (is_role n "appengine" && !(is_role n "rabbitmq")) = true
  · rw [if_pos ha]
    exact masterFree_addRoleA n _ (hm n hn)
  · rw [if_neg ha]
    exact hm n hn

/-! C1: exactly one shadow node in every successfully validated layout. -/

theorem simpleValidateYaml_shadow (va : List String) (p : LayoutParams) (y : Yaml)
    (out : LayoutOut) (h : simpleValidateYaml va p y = .ok out)
    (hok : out.check.result = true) : countRole out.nodes "shadow" = 1 := by
  simp only [simpleValidateYaml] at h
  split at h
  · exact absurd h (by simp)
  · rw [Except.ok.injEq] at h
    subst h
    simp [invalidR] at hok
  · split at h
    · rw [Except.ok.injEq] at h
      subst h
      simp [invalidR] at hok
    · split at h
      · rw [Except.ok.injEq] at h
        subst h
        simp [invalidR] at hok
      · split at h
        · rw [Except.ok.injEq] at h
          subst h
          simp [invalidR] at hok
        · split at h
          · rw [Except.ok.injEq] at h
            subst h
            simp only []
            omega
          · rename_i hneg
            rw [Except.ok.injEq] at h
            subst h
            exact absurd hok hneg

theorem is_valid_simple_format_shadow (va : List String) (p : LayoutParams)
    (yaml : Option Yaml) (out : LayoutOut) (h : is_valid_simple_format va p yaml = .ok out)
    (hok : out.check.result = true) : countRole out.nodes "shadow" = 1 := by
  simp only [is_valid_simple_format] at h
  split at h
  · exact simpleValidateYaml_shadow va p _ out h hok
  · split at h
    · split at h
      · rw [Except.ok.injEq] at h
        subst h
        simp [invalidR] at hok
      · split at h
        · rw [Except.ok.injEq] at h
          subst h
          simp [invalidR] at hok
        · exact simpleValidateYaml_shadow va p _ out h hok
    · rw [Except.ok.injEq] at h
      subst h
      simp [invalidR] at hok

set_option maxHeartbeats 1600000 in
theorem is_valid_advanced_format_shadow (va : List String) (p : LayoutParams) (y : Yaml)
    (out : LayoutOut) (h : is_valid_advanced_format va p y = .ok out)
    (hok : out.check.result = true) : countRole out.nodes "shadow" = 1 := by
  simp only [is_valid_advanced_format] at h
  split at h
  · exact absurd h (by simp)
  · next hh heq =>
    have hm0 : ∀ n ∈ hh.map Prod.snd, "master" ∉ n.roles :=
      advLoop_values_masterFree y hh heq
    split at h
    · rw [Except.ok.injEq] at h
      subst h
      simp [invalidR] at hok
    · split at h
      · rw [Except.ok.injEq] at h
        subst h
        simp [invalidR] at hok
      · split at h
        · rw [Except.ok.injEq] at h
          subst h
          simp [invalidR] at hok
        · split at h
          · rw [Except.ok.injEq] at h
            subst h
            simp [invalidR] at hok
          · split at h
            · rw [Except.ok.injEq] at h
              subst h
              simp only []
              have hm1 := advPromote1_masterFree (hh.map Prod.snd)
                ((hh.map Prod.snd).findIdx (fun n => is_role n "shadow")) hm0
              have hm2 := advPromote2_masterFree _ hm1
              have hm3 := advPromote3_masterFree _
                ((hh.map Prod.snd).findIdx (fun n => is_role n "shadow")) hm2
              have hm4 := advPromote4_masterFree _
                ((hh.map Prod.snd).findIdx (fun n => is_role n "shadow")) hm3
              rw [advPromote5_shadow _ hm4, advPromote4_shadow _ _ hm3,
                advPromote3_shadow _ _ hm2, advPromote2_shadow _ hm1,
                advPromote1_shadow _ _ hm0]
              omega
            · rename_i hneg
              rw [Except.ok.injEq] at h
              subst h
              exact absurd hok hneg

/-- C1: whenever validation succeeds, in either the simple or the advanced
dialect, the resulting node set contains exactly one node carrying the
`shadow` role (node sets with zero or several shadow nodes are rejected
before the validators can succeed). -/
theorem claim_C1_exactly_one_shadow (va va2 : List String) (p p2 : LayoutParams)
    (yaml : Option Yaml) (y : Yaml) :
    (simpleResultOk va p yaml = true →
      countRole (simpleResultNodes va p yaml) "shadow" = 1) ∧
    (advResultOk va2 p2 y = true →
      countRole (advResultNodes va2 p2 y) "shadow" = 1) := by
  constructor
  · intro hok
    rcases hv : is_valid_simple_format va p yaml with e | o
    · rw [simpleResultOk, hv] at hok
      simp at hok
    · rw [simpleResultOk, hv] at hok
      rw [simpleResultNodes, hv]
      exact is_valid_simple_format_shadow va p yaml o hv hok
  · intro hok
    rcases hv : is_valid_advanced_format va2 p2 y with e | o
    · rw [advResultOk, hv] at hok
      simp at hok
    · rw [advResultOk, hv] at hok
      rw [advResultNodes, hv]
      exact is_valid_advanced_format_shadow va2 p2 y o hv hok

theorem claim_C1_exactly_one_shadow_witness :
    simpleResultOk [] pPlain (some ySimpleTwo) = true ∧
    countRole (simpleResultNodes [] pPlain (some ySimpleTwo)) "shadow" = 1 ∧
    advResultOk [] pPlain yAdvThree = true ∧
    countRole (advResultNodes [] pPlain yAdvThree) "shadow" = 1 :=
  ⟨rfl,
   (claim_C1_exactly_one_shadow [] [] pPlain pPlain (some ySimpleTwo) yAdvThree).1 rfl,
   rfl,
   (claim_C1_exactly_one_shadow [] [] pPlain pPlain (some ySimpleTwo) yAdvThree).2 rfl⟩

/-! Persistence of established roles through the advanced build loop. -/

theorem hashGet_hashSet_self (h : Hash) (ip : String) (n : PyNode) :
    hashGet (hashSet h ip n) ip = some n := by
  induction h with
  | nil => simp [hashSet, hashGet]
  | cons kv rest ih =>
    obtain ⟨k, v⟩ := kv
    by_cases hk : k = ip
    · simp [hashSet, hashGet, hk]
    · simp [hashSet, hashGet, hk, ih]

theorem hashGet_hashSet_ne (h : Hash) (ip x : String) (n : PyNode) (hx : x ≠ ip) :
    hashGet (hashSet h ip n) x = hashGet h x := by
  induction h with
  | nil => simp [hashSet, hashGet, Ne.symm hx]
  | cons kv rest ih =>
    obtain ⟨k, v⟩ := kv
    by_cases hk : k = ip
    · subst hk
      simp [hashSet, hashGet, Ne.symm hx]
    · simp only [hashSet, if_neg hk]
      by_cases hkx : k = x
      · simp [hashGet, hkx]
      · simp [hashGet, hkx, ih]

theorem roleAt_hashSet_self (h : Hash) (ip : String) (n : PyNode) (q : Role) :
    roleAt (hashSet h ip n) ip q = is_role n q := by
  simp [roleAt, hashGet_hashSet_self]

theorem mem_addRoleA_self (n : PyNode) (r : Role) (hr : r ≠ "master") :
    r ∈ (addRoleA n r).roles :=
  mem_expandRolesAdvanced_of_mem r _ hr
    (List.mem_append_right _ (List.mem_singleton.mpr rfl))

theorem advDispatch_pres_mem (q : Role) (hq : q ≠ "master") (role : String) (i : Nat)
    (n : PyNode) (h : q ∈ n.roles) : q ∈ (advDispatch role i n).roles := by
  unfold advDispatch
  split
  · unfold addDbRoleA
    split <;> exact mem_addRoleA_of_mem q _ _ hq h
  · split
    · exact mem_addRoleA_of_mem q _ _ hq (mem_addRoleA_of_mem q _ _ hq h)
    · split
      · unfold addRabbitRoleA
        split <;> exact mem_addRoleA_of_mem q _ _ hq (mem_addRoleA_of_mem q _ _ hq h)
      · exact mem_addRoleA_of_mem q _ _ hq h

theorem roleAt_advProcessHost (q : Role) (hq : q ≠ "master") (role : String) (i : Nat)
    (h : Hash) (ip x : String) (hx : roleAt h x q = true) :
    roleAt (advProcessHost role i h ip) x q = true := by
  unfold advProcessHost
  by_cases hip : x = ip
  · subst hip
    rw [roleAt_hashSet_self]
    rcases hg : hashGet h x with _ | n
    · rw [roleAt, hg] at hx
      exact absurd hx (by simp)
    · rw [roleAt, hg] at hx
      have hmem : q ∈ n.roles := (is_role_iff n q).mp hx
      rw [is_role_iff]
      have hgo : getOrCreate h x = n := by simp [getOrCreate, hg]
      rw [hgo]
      exact advDispatch_pres_mem q hq role i n hmem
  · rw [roleAt, hashGet_hashSet_ne h ip x _ hip]
    rw [roleAt] at hx
    exact hx

theorem roleAt_advProcessHosts (q : Role) (hq : q ≠ "master") (role : String) :
    ∀ (hosts : List String) (i : Nat) (h : Hash) (x : String), roleAt h x q = true →
      roleAt (advProcessHosts role i h hosts) x q = true := by
  intro hosts
  induction hosts with
  | nil => intro i h x hx; exact hx
  | cons ip rest ih =>
    intro i h x hx
    exact ih (i + 1) _ x (roleAt_advProcessHost q hq role i h ip x hx)

theorem roleAt_advLoop (q : Role) (hq : q ≠ "master") :
    ∀ (d : Yaml) (h0 h1 : Hash) (x : String), advLoop h0 d = .ok h1 →
      roleAt h0 x q = true → roleAt h1 x q = true := by
  intro d
  induction d with
  | nil =>
    intro h0 h1 x hl hx
    simp only [advLoop] at hl
    injection hl with hl
    subst hl
    exact hx
  | cons kv rest ih =>
    intro h0 h1 x hl hx
    obtain ⟨role, ips⟩ := kv
    simp only [advLoop] at hl
    rcases hsp : hostsOf ips with _ | hosts
    · rw [hsp] at hl
      exact absurd hl (by simp)
    · rw [hsp] at hl
      exact ih _ h1 x hl (roleAt_advProcessHosts q hq role hosts 0 h0 x hx)

theorem advDispatch_database_zero (n : PyNode) :
    advDispatch "database" 0 n = addRoleA n "db_master" := by
  simp [advDispatch, addDbRoleA]

theorem advDispatch_database_succ (n : PyNode) (i : Nat) :
    advDispatch "database" (i + 1) n = addRoleA n "db_slave" := by
  simp [advDispatch, addDbRoleA]

theorem advDispatch_db_master_key (n : PyNode) (i : Nat) :
    advDispatch "db_master" i n = addRoleA (addRoleA n "zookeeper") "role" := by
  simp [advDispatch]

theorem advProcessHosts_db_master (v : String) (vs : List String) (h : Hash) :
    roleAt (advProcessHosts "database" 0 h (v :: vs)) v "db_master" = true := by
  have hstep : roleAt (advProcessHost "database" 0 h v) v "db_master" = true := by
    unfold advProcessHost
    rw [advDispatch_database_zero, roleAt_hashSet_self, is_role_iff]
    exact mem_addRoleA_self _ _ (by decide)
  exact roleAt_advProcessHosts "db_master" (by decide) "database" vs 1 _ v hstep

theorem advProcessHosts_db_slave (hosts : List String) :
    ∀ (i : Nat) (h : Hash), 1 ≤ i →
      ∀ x ∈ hosts, roleAt (advProcessHosts "database" i h hosts) x "db_slave" = true := by
  induction hosts with
  | nil => intro i h hi x hx; exact absurd hx (List.not_mem_nil x)
  | cons v rest ih =>
    intro i h hi x hx
    rcases List.mem_cons.mp hx with rfl | hx2
    · have hstep : roleAt (advProcessHost "database" i h x) x "db_slave" = true := by
        unfold advProcessHost
        obtain ⟨j, rfl⟩ : ∃ j, i = j + 1 := ⟨i - 1, by omega⟩
        rw [advDispatch_database_succ, roleAt_hashSet_self, is_role_iff]
        exact mem_addRoleA_self _ _ (by decide)
      exact roleAt_advProcessHosts "db_slave" (by decide) "database" rest (i + 1) _ x hstep
    · exact ih (i + 1) _ (by omega) x hx2

theorem advLoop_database_roles (d : Yaml) :
    ∀ (h0 h1 : Hash) (ips : IpsVal) (v : String) (vs : List String),
      advLoop h0 d = .ok h1 → ("database", ips) ∈ d → hostsOf ips = some (v :: vs) →
      roleAt h1 v "db_master" = true ∧ ∀ x ∈ vs, roleAt h1 x "db_slave" = true := by
  induction d with
  | nil =>
    intro h0 h1 ips v vs hl hmem hh
    exact absurd hmem (List.not_mem_nil _)
  | cons kv rest ih =>
    intro h0 h1 ips v vs hl hmem hh
    obtain ⟨role, ips2⟩ := kv
    simp only [advLoop] at hl
    rcases List.mem_cons.mp hmem with heq | hmem2
    · obtain ⟨hrole, hips⟩ := Prod.mk.injEq .. ▸ heq
      subst hrole
      subst hips
      rw [hh] at hl
      constructor
      · exact roleAt_advLoop "db_master" (by decide) rest _ h1 v hl
          (advProcessHosts_db_master v vs h0)
      · intro x hx
        refine roleAt_advLoop "db_slave" (by decide) rest _ h1 x hl ?_
        have hexp : advProcessHosts "database" 0 h0 (v :: vs) =
            advProcessHosts "database" 1 (advProcessHost "database" 0 h0 v) vs := rfl
        rw [hexp]
        exact advProcessHosts_db_slave vs 1 _ (by omega) x hx
    · rcases hsp : hostsOf ips2 with _ | hosts
      · rw [hsp] at hl
        exact absurd hl (by simp)
      · rw [hsp] at hl
        exact ih _ h1 ips v vs hl hmem2 hh

/-- C5: in an advanced build whose `database` entry lists hosts v, vs..., the
first-listed host ends up carrying `db_master` and every subsequent host
carries `db_slave` in the built node hash. -/
theorem claim_C5_database_master_slave (d : Yaml) (h1 : Hash) (ips : IpsVal)
    (v : String) (vs : List String) (hl : advLoop [] d = .ok h1)
    (hmem : ("database", ips) ∈ d) (hh : hostsOf ips = some (v :: vs)) :
    roleAt h1 v "db_master" = true ∧ vs.all (fun x => roleAt h1 x "db_slave") = true := by
  obtain ⟨h1m, h1s⟩ := advLoop_database_roles d [] h1 ips v vs hl hmem hh
  exact ⟨h1m, List.all_eq_true.mpr (fun x hx => h1s x hx)⟩

theorem claim_C5_database_master_slave_witness :
    roleAt (advBuildHash yC5) "10.0.0.1" "db_master" = true ∧
    (["10.0.0.2", "10.0.0.3"].all
      (fun x => roleAt (advBuildHash yC5) x "db_slave")) = true :=
  claim_C5_database_master_slave yC5 (advBuildHash yC5)
    (.l ["10.0.0.1", "10.0.0.2", "10.0.0.3"]) "10.0.0.1" ["10.0.0.2", "10.0.0.3"]
    rfl (by decide) rfl

/-! Hosts listed under the literal `db_master` key. -/

theorem advProcessHosts_dbmaster_key (hosts : List String) :
    ∀ (i : Nat) (h : Hash), ∀ x ∈ hosts,
      roleAt (advProcessHosts "db_master" i h hosts) x "zookeeper" = true ∧
      roleAt (advProcessHosts "db_master" i h hosts) x "role" = true := by
  induction hosts with
  | nil => intro i h x hx; exact absurd hx (List.not_mem_nil x)
  | cons v rest ih =>
    intro i h x hx
    rcases List.mem_cons.mp hx with rfl | hx2
    · have hz : roleAt (advProcessHost "db_master" i h x) x "zookeeper" = true := by
        unfold advProcessHost
        rw [advDispatch_db_master_key, roleAt_hashSet_self, is_role_iff]
        exact mem_addRoleA_of_mem _ _ _ (by decide) (mem_addRoleA_self _ _ (by decide))
      have hr : roleAt (advProcessHost "db_master" i h x) x "role" = true := by
        unfold advProcessHost
        rw [advDispatch_db_master_key, roleAt_hashSet_self, is_role_iff]
        exact mem_addRoleA_self _ _ (by decide)
      exact ⟨roleAt_advProcessHosts "zookeeper" (by decide) "db_master" rest (i + 1) _ x hz,
             roleAt_advProcessHosts "role" (by decide) "db_master" rest (i + 1) _ x hr⟩
    · exact ih (i + 1) _ x hx2

theorem advLoop_db_master_key (d : Yaml) :
    ∀ (h0 h1 : Hash) (ips : IpsVal), advLoop h0 d = .ok h1 → ("db_master", ips) ∈ d →
      ∀ x ∈ (hostsOf ips).getD [],
        roleAt h1 x "zookeeper" = true ∧ roleAt h1 x "role" = true := by
  induction d with
  | nil =>
    intro h0 h1 ips hl hmem
    exact absurd hmem (List.not_mem_nil _)
  | cons kv rest ih =>
    intro h0 h1 ips hl hmem
    obtain ⟨role, ips2⟩ := kv
    simp only [advLoop] at hl
    rcases List.mem_cons.mp hmem with heq | hmem2
    · obtain ⟨hrole, hips⟩ := Prod.mk.injEq .. ▸ heq
      subst hrole
      subst hips
      rcases hsp : hostsOf ips with _ | hosts
      · rw [hsp] at hl
        exact absurd hl (by simp)
      · rw [hsp] at hl
        intro x hx
        simp only [Option.getD_some] at hx
        obtain ⟨hz, hr⟩ := advProcessHosts_dbmaster_key hosts 0 h0 x hx
        exact ⟨roleAt_advLoop "zookeeper" (by decide) rest _ h1 x hl hz,
               roleAt_advLoop "role" (by decide) rest _ h1 x hl hr⟩
    · rcases hsp : hostsOf ips2 with _ | hosts
      · rw [hsp] at hl
        exact absurd hl (by simp)
      · rw [hsp] at hl
        exact ih _ h1 ips hl hmem2

/-- C10 amended: a description containing the literal key `db_master` is not
classified as advanced (the key is outside the advanced vocabulary), so
`is_valid` never processes it as an advanced deployment; if the advanced
builder is nevertheless run on it, every host listed under `db_master` does
receive `zookeeper` — together with the literal (invalid) role token
`role`. -/
theorem claim_C10_db_master_key (d : Yaml) (h1 : Hash) (ips : IpsVal)
    (hmem : ("db_master", ips) ∈ d) :
    is_advanced_format (some d) = false ∧
    (advLoop [] d = .ok h1 →
      ((hostsOf ips).getD []).all
        (fun x => roleAt h1 x "zookeeper" && roleAt h1 x "role") = true) := by
  constructor
  · have hne : ¬ d.isEmpty = true := by
      intro hd
      rw [List.isEmpty_iff.mp hd] at hmem
      exact absurd hmem (List.not_mem_nil _)
    have hall : ¬ (d.all (fun kv => decide (kv.1 ∈ ADVANCED_FORMAT_KEYS)) = true) := by
      intro hall
      have hk := List.all_eq_true.mp hall _ hmem
      simp [ADVANCED_FORMAT_KEYS] at hk
    simp only [is_advanced_format, yamlTruthy, Option.getD_some]
    rw [if_pos (by simp [hne]), Bool.eq_false_iff]
    exact hall
  · intro hl
    refine List.all_eq_true.mpr (fun x hx => ?_)
    obtain ⟨hz, hr⟩ := advLoop_db_master_key d [] h1 ips hl hmem x hx
    rw [hz, hr]
    rfl

theorem claim_C10_db_master_key_witness :
    is_advanced_format (some yC10b) = false ∧
    ((hostsOf (IpsVal.l ["10.0.0.2", "10.0.0.3"])).getD []).all
      (fun x => roleAt (advBuildHash yC10b) x "zookeeper" &&
        roleAt (advBuildHash yC10b) x "role") = true :=
  ⟨(claim_C10_db_master_key yC10b (advBuildHash yC10b)
      (.l ["10.0.0.2", "10.0.0.3"]) (by decide)).1,
   (claim_C10_db_master_key yC10b (advBuildHash yC10b)
      (.l ["10.0.0.2", "10.0.0.3"]) (by decide)).2 rfl⟩

/-! C8: a single-node simple deployment gains appengine and memcache. -/

theorem mem_addRoleS_self (n : PyNode) (r : Role) (h1 : r ≠ "controller")
    (h2 : r ≠ "servers") : r ∈ (addRoleS n r).roles :=
  mem_expandRolesSimple_of_mem r _ h1 h2
    (List.mem_append_right _ (List.mem_singleton.mpr rfl))

theorem promoteSingleton_eq_single (ns : List PyNode) (n : PyNode)
    (h : promoteSingleton ns = [n]) :
    ∃ n0, ns = [n0] ∧ n = addRoleS (addRoleS n0 "appengine") "memcache" := by
  unfold promoteSingleton at h
  split at h
  · next hlen =>
    rcases ns with _ | ⟨n0, rest⟩
    · simp at hlen
    · rcases rest with _ | ⟨n1, rest2⟩
      · refine ⟨n0, rfl, ?_⟩
        simp only [updateIdx] at h
        exact (List.cons.injEq .. ▸ h).1.symm
      · simp at hlen
  · next hlen =>
    rw [h] at hlen
    simp at hlen

theorem expandS_single_no_composites (role : String) :
    ∀ a ∈ expandRolesSimple [role], a ≠ "controller" ∧ a ≠ "servers" := by
  by_cases hc : role = "controller"
  · subst hc
    decide
  · by_cases hs : role = "servers"
    · subst hs
      decide
    · intro a ha
      have hself : expandRolesSimple [role] = [role] := by
        simp [expandRolesSimple, List.mem_singleton, Ne.symm hc, Ne.symm hs,
          pyDedup, pyDedupAux]
      rw [hself] at ha
      simp only [List.mem_singleton] at ha
      subst ha
      exact ⟨hc, hs⟩

theorem expandS_single_subset_buildNode (role ip : String) :
    ∀ a ∈ expandRolesSimple [role], a ∈ (simpleBuildNode role ip).roles := by
  intro a ha
  obtain ⟨h1, h2⟩ := expandS_single_no_composites role a ha
  simp only [simpleBuildNode, addRabbitRoleS, addDbRoleS]
  split <;>
    exact mem_addRoleS_of_mem a _ _ h1 h2 (mem_addRoleS_of_mem a _ _ h1 h2 ha)

theorem buildHostsSimple_ok_eq (va : List String) (infra : Option String) (role : String) :
    ∀ (hosts : List String) (ns : List PyNode),
      buildHostsSimple va infra role hosts = .ok (.ok ns) →
      ns = hosts.map (simpleBuildNode role) := by
  intro hosts
  induction hosts with
  | nil =>
    intro ns h
    simp only [buildHostsSimple, Except.ok.injEq] at h
    simp [← h]
  | cons ip rest ih =>
    intro ns h
    simp only [buildHostsSimple] at h
    split at h
    · exact absurd h (by simp)
    · split at h
      · exact absurd h (by simp)
      · split at h
        · exact absurd h (by simp)
        · exact absurd h (by simp)
        · next ns1 heq =>
          simp only [Except.ok.injEq] at h
          rw [List.map_cons, ← ih ns1 heq, ← h]

theorem buildSimpleLoop_ok_mem (va : List String) (infra : Option String) :
    ∀ (y : Yaml) (ns : List PyNode), buildSimpleLoop va infra y = .ok (.ok ns) →
      ∀ (role : String) (ips : IpsVal), (role, ips) ∈ y →
        ∀ ip ∈ (hostsOf ips).getD [], simpleBuildNode role ip ∈ ns := by
  intro y
  induction y with
  | nil =>
    intro ns h role ips hmem
    exact absurd hmem (List.not_mem_nil _)
  | cons kv rest ih =>
    intro ns h role ips hmem ip hip
    obtain ⟨r0, i0⟩ := kv
    simp only [buildSimpleLoop] at h
    split at h
    · exact absurd h (by simp)
    · rename_i hosts hsp
      split at h
      · exact absurd h (by simp)
      · exact absurd h (by simp)
      · rename_i ns1 hbh
        split at h
        · exact absurd h (by simp)
        · exact absurd h (by simp)
        · rename_i ns2 hbl
          simp only [Except.ok.injEq] at h
          rcases List.mem_cons.mp hmem with heq | hmem2
          · obtain ⟨hr, hi⟩ := Prod.mk.injEq .. ▸ heq
            subst hr
            subst hi
            rw [hsp] at hip
            simp only [Option.getD_some] at hip
            rw [← h]
            refine List.mem_append_left ns2 ?_
            rw [buildHostsSimple_ok_eq va infra role hosts ns1 hbh]
            exact List.mem_map_of_mem _ hip
          · rw [← h]
            exact List.mem_append_right ns1 (ih ns2 hbl role ips hmem2 ip hip)

theorem simpleValidateYaml_singleton (va : List String) (p : LayoutParams) (y : Yaml)
    (out : LayoutOut) (n : PyNode) (h : simpleValidateYaml va p y = .ok out)
    (hok : out.check.result = true) (hone : out.nodes = [n]) :
    is_role n "appengine" = true ∧ is_role n "memcache" = true ∧
    (∀ (role : String) (ips : IpsVal), (role, ips) ∈ y →
      ∀ ip ∈ (hostsOf ips).getD [], ∀ a ∈ expandRolesSimple [role], a ∈ n.roles) := by
  simp only [simpleValidateYaml] at h
  split at h
  · exact absurd h (by simp)
  · rw [Except.ok.injEq] at h
    subst h
    simp [invalidR] at hok
  · next ns0 heq =>
    split at h
    · rw [Except.ok.injEq] at h
      subst h
      simp [invalidR] at hok
    · split at h
      · rw [Except.ok.injEq] at h
        subst h
        simp [invalidR] at hok
      · split at h
        · rw [Except.ok.injEq] at h
          subst h
          simp [invalidR] at hok
        · split at h
          · rw [Except.ok.injEq] at h
            subst h
            simp only [] at hone
            obtain ⟨n0, hns, hn⟩ := promoteSingleton_eq_single ns0 n hone
            subst hn
            refine ⟨?_, ?_, ?_⟩
            · rw [is_role_iff]
              exact mem_addRoleS_of_mem _ _ _ (by decide) (by decide)
                (mem_addRoleS_self n0 "appengine" (by decide) (by decide))
            · rw [is_role_iff]
              exact mem_addRoleS_self _ "memcache" (by decide) (by decide)
            · intro role ips hmem ip hip a ha
              have hnode := buildSimpleLoop_ok_mem va p.infrastructure y ns0 heq
                role ips hmem ip hip
              rw [hns] at hnode
              simp only [List.mem_singleton] at hnode
              obtain ⟨hc1, hc2⟩ := expandS_single_no_composites role a ha
              refine mem_addRoleS_of_mem a _ _ hc1 hc2
                (mem_addRoleS_of_mem a _ _ hc1 hc2 ?_)
              rw [← hnode]
              exact expandS_single_subset_buildNode role ip a ha
          · rename_i hneg
            rw [Except.ok.injEq] at h
            subst h
            exact absurd hok hneg

theorem yaml_falsy_getD (yaml : Option Yaml) (h : ¬ yamlTruthy yaml = true) :
    yaml.getD [] = [] := by
  rcases yaml with _ | y
  · rfl
  · simp only [yamlTruthy, Bool.not_eq_true] at h
    simp only [Option.getD_some]
    rw [Bool.not_eq_false'] at h
    exact List.isEmpty_iff.mp h

/-- C8: every simple-format validation run that succeeds with exactly one
node gives that node the `appengine` and `memcache` roles, in addition to
the expansion of whatever role the description listed its host under. -/
theorem claim_C8_singleton_promotion (va : List String) (p : LayoutParams)
    (yaml : Option Yaml) (n : PyNode) (hok : simpleResultOk va p yaml = true)
    (hone : simpleResultNodes va p yaml = [n]) :
    is_role n "appengine" = true ∧ is_role n "memcache" = true ∧
    (∀ (role : String) (ips : IpsVal), (role, ips) ∈ yaml.getD [] →
      ∀ ip ∈ (hostsOf ips).getD [], ∀ a ∈ expandRolesSimple [role], a ∈ n.roles) := by
  rcases hv : is_valid_simple_format va p yaml with e | o
  · rw [simpleResultOk, hv] at hok
    simp at hok
  · rw [simpleResultOk, hv] at hok
    rw [simpleResultNodes, hv] at hone
    simp only [is_valid_simple_format] at hv
    split at hv
    · exact simpleValidateYaml_singleton va p _ o n hv hok hone
    · next hfalsy =>
      split at hv
      · split at hv
        · rw [Except.ok.injEq] at hv
          rw [← hv] at hok
          simp [invalidR] at hok
        · split at hv
          · rw [Except.ok.injEq] at hv
            rw [← hv] at hok
            simp [invalidR] at hok
          · obtain ⟨h1, h2, _⟩ := simpleValidateYaml_singleton va p _ o n hv hok hone
            refine ⟨h1, h2, ?_⟩
            rw [yaml_falsy_getD yaml hfalsy]
            intro role ips hmem
            exact absurd hmem (List.not_mem_nil _)
      · rw [Except.ok.injEq] at hv
        rw [← hv] at hok
        simp [invalidR] at hok

theorem claim_C8_singleton_promotion_witness :
    is_role nC8 "appengine" = true ∧ is_role nC8 "memcache" = true :=
  ⟨(claim_C8_singleton_promotion [] pPlain (some ySimpleOne) nC8 rfl rfl).1,
   (claim_C8_singleton_promotion [] pPlain (some ySimpleOne) nC8 rfl rfl).2.1⟩

/-! C6 amended: with well-shaped ids, duplicates yield the duplicate-IP
message. -/

theorem simpleBuildNode_id (role ip : String) :
    (simpleBuildNode role ip).id = (parse_ip ip).1 := by
  simp only [simpleBuildNode, addRabbitRoleS, addDbRoleS]
  split <;> rfl

theorem nodeIsValid_simpleBuildNode (role ip : String)
    (hrole : role = "controller" ∨ role = "servers") :
    nodeIsValid (simpleBuildNode role ip) = true := by
  rcases hrole with rfl | rfl
  · rfl
  · rfl

theorem buildHostsSimple_ok (va : List String) (infra : Option String) (role : String)
    (hrole : role = "controller" ∨ role = "servers") :
    ∀ hosts : List String,
      (∀ ip ∈ hosts, idShapeError va infra (parse_ip ip).1 = none) →
      ∃ ns, buildHostsSimple va infra role hosts = .ok (.ok ns) := by
  intro hosts
  induction hosts with
  | nil => exact fun _ => ⟨[], rfl⟩
  | cons ip rest ih =>
    intro hshape
    obtain ⟨ns, hns⟩ := ih (fun x hx => hshape x (List.mem_cons_of_mem ip hx))
    refine ⟨simpleBuildNode role ip :: ns, ?_⟩
    have hval := nodeIsValid_simpleBuildNode role ip hrole
    have hid : idShapeError va infra (simpleBuildNode role ip).id = none := by
      rw [simpleBuildNode_id]
      exact hshape ip (List.mem_cons_self ip rest)
    simp only [buildHostsSimple, hval, hid, hns]
    rw [if_neg (by decide : ¬ (true = false))]

theorem buildSimpleLoop_ok (va : List String) (infra : Option String) :
    ∀ y : Yaml,
      (∀ kv ∈ y, kv.1 = "controller" ∨ kv.1 = "servers") →
      (∀ kv ∈ y, kv.2 ≠ IpsVal.null ∧
        ∀ ip ∈ (hostsOf kv.2).getD [], idShapeError va infra (parse_ip ip).1 = none) →
      ∃ ns, buildSimpleLoop va infra y = .ok (.ok ns) := by
  intro y
  induction y with
  | nil => exact fun _ _ => ⟨[], rfl⟩
  | cons kv rest ih =>
    intro hkeys hshape
    obtain ⟨r0, i0⟩ := kv
    obtain ⟨hnull, hids⟩ := hshape (r0, i0) (List.mem_cons_self _ _)
    have hhosts : ∃ hosts, hostsOf i0 = some hosts := by
      rcases i0 with v | vs | _
      · exact ⟨[v], rfl⟩
      · exact ⟨vs, rfl⟩
      · exact absurd rfl hnull
    obtain ⟨hosts, hh⟩ := hhosts
    rw [hh] at hids
    simp only [Option.getD_some] at hids
    obtain ⟨ns1, h1⟩ := buildHostsSimple_ok va infra r0
      (hkeys (r0, i0) (List.mem_cons_self _ _)) hosts hids
    obtain ⟨ns2, h2⟩ := ih (fun x hx => hkeys x (List.mem_cons_of_mem _ hx))
      (fun x hx => hshape x (List.mem_cons_of_mem _ hx))
    exact ⟨ns1 ++ ns2, by simp only [buildSimpleLoop, hh, h1, h2]⟩

/-- C6 amended: in a simple-dialect description with no null entries whose
host ids all pass the infrastructure id-shape check, any duplicated host id
makes validation return Invalid with the duplicate-IP message, regardless of
the roles involved. -/
theorem claim_C6_duplicate_ips (va : List String) (p : LayoutParams) (y : Yaml)
    (hkeys : ∀ kv ∈ y, kv.1 = "controller" ∨ kv.1 = "servers")
    (hshape : ∀ kv ∈ y, kv.2 ≠ IpsVal.null ∧
      ∀ ip ∈ (hostsOf kv.2).getD [], idShapeError va p.infrastructure (parse_ip ip).1 = none)
    (hdup : ¬ (flattenVals y).Nodup) :
    is_valid_simple_format va p (some y) =
      .ok { check := invalidR DUPLICATE_IPS, nodes := [], replication := p.replication,
            minVms := p.minVms, maxVms := p.maxVms } := by
  have hne : ¬ y.isEmpty = true := by
    intro hy
    rw [List.isEmpty_iff.mp hy] at hdup
    exact hdup (by simp [flattenVals])
  have htruthy : yamlTruthy (some y) = true := by
    simp [yamlTruthy, hne]
  obtain ⟨ns, hloop⟩ := buildSimpleLoop_ok va p.infrastructure y hkeys hshape
  have hnum : 0 < (flattenVals y).length - (pyDedup (flattenVals y)).length := by
    have := pyDedup_length_lt_of_not_nodup (flattenVals y) hdup
    omega
  simp only [is_valid_simple_format, htruthy, if_true, Option.getD_some,
    simpleValidateYaml, hloop, hnum, if_pos]

theorem claim_C6_duplicate_ips_witness :
    is_valid_simple_format [] pPlain (some yC6dup) =
      .ok { check := invalidR DUPLICATE_IPS, nodes := [], replication := none,
            minVms := none, maxVms := none } :=
  claim_C6_duplicate_ips [] pPlain yC6dup (by decide) (by decide) (by decide)

/-! C7: advanced builds never attribute the literal `database` role, and at
most one node ever gets `db_master`. -/

theorem databaseFree_addRoleA (n : PyNode) (r : Role) (hr : r ≠ "database")
    (hd : "database" ∉ n.roles) : "database" ∉ (addRoleA n r).roles := by
  intro h
  rcases mem_addRoleA_intro _ n r h with h | h | h | h | h
  · exact hd h
  · exact hr h.symm
  · exact absurd h (by decide)
  · exact absurd h (by decide)
  · exact absurd h (by decide)

theorem advLoop_values_databaseFree (d : Yaml) (h1 : Hash) (hl : advLoop [] d = .ok h1) :
    ∀ n ∈ h1.map Prod.snd, "database" ∉ n.roles := by
  intro n hn
  rcases List.mem_map.mp hn with ⟨pr, hpr, rfl⟩
  refine advLoop_pres (fun n => "database" ∉ n.roles)
    (fun n r hr hd => databaseFree_addRoleA n r hr hd)
    (fun a b => by
      show "database" ∉ (mkAdvancedNode a b).roles
      rw [mkAdvancedNode_roles]
      exact List.not_mem_nil _)
    d [] h1 hl (fun pr hpr => absurd hpr (List.not_mem_nil _)) pr hpr

theorem dbm_of_addRoleA (n : PyNode) (r : Role) (hr : r ≠ "db_master")
    (h : "db_master" ∈ (addRoleA n r).roles) : "db_master" ∈ n.roles := by
  rcases mem_addRoleA_intro _ n r h with h | h | h | h | h
  · exact h
  · exact absurd h.symm hr
  · exact absurd h (by decide)
  · exact absurd h (by decide)
  · exact absurd h (by decide)

theorem advDispatch_no_dbm_intro (role : String) (hr : role ≠ "database") (i : Nat)
    (n : PyNode) (h : "db_master" ∈ (advDispatch role i n).roles) :
    "db_master" ∈ n.roles := by
  unfold advDispatch at h
  split at h
  · next heq => exact absurd heq hr
  · split at h
    · exact dbm_of_addRoleA _ _ (by decide) (dbm_of_addRoleA _ _ (by decide) h)
    · next hne2 =>
      split at h
      · unfold addRabbitRoleA at h
        split at h
        · exact dbm_of_addRoleA _ _ (by decide) (dbm_of_addRoleA _ _ (by decide) h)
        · exact dbm_of_addRoleA _ _ (by decide) (dbm_of_addRoleA _ _ (by decide) h)
      · exact dbm_of_addRoleA _ _ hne2 h

theorem advProcessHost_dbmFree (role : String) (hr : role ≠ "database") (i : Nat)
    (h : Hash) (ip : String) (hfree : ∀ pr ∈ h, "db_master" ∉ pr.2.roles) :
    ∀ pr ∈ advProcessHost role i h ip, "db_master" ∉ pr.2.roles := by
  intro pr hpr
  simp only [advProcessHost] at hpr
  rcases mem_hashSet_cases _ _ _ _ hpr with h2 | rfl
  · exact hfree pr h2
  · intro hdbm
    have hbase := advDispatch_no_dbm_intro role hr i _ hdbm
    rcases hg : hashGet h ip with _ | n
    · simp [getOrCreate, hg, mkAdvancedNode_roles] at hbase
    · simp only [getOrCreate, hg] at hbase
      exact hfree (ip, n) (hashGet_mem h ip n hg) hbase

theorem advProcessHosts_dbmFree (role : String) (hr : role ≠ "database") :
    ∀ (hosts : List String) (i : Nat) (h : Hash),
      (∀ pr ∈ h, "db_master" ∉ pr.2.roles) →
      ∀ pr ∈ advProcessHosts role i h hosts, "db_master" ∉ pr.2.roles := by
  intro hosts
  induction hosts with
  | nil => exact fun i h hfree => hfree
  | cons ip rest ih =>
    intro i h hfree
    exact ih (i + 1) _ (advProcessHost_dbmFree role hr i h ip hfree)

theorem advLoop_dbmFree : ∀ (d : Yaml), "database" ∉ d.map Prod.fst →
    ∀ (h0 h1 : Hash), advLoop h0 d = .ok h1 →
      (∀ pr ∈ h0, "db_master" ∉ pr.2.roles) →
      ∀ pr ∈ h1, "db_master" ∉ pr.2.roles := by
  intro d
  induction d with
  | nil =>
    intro _ h0 h1 hl hfree
    simp only [advLoop] at hl
    injection hl with hl
    subst hl
    exact hfree
  | cons kv rest ih =>
    intro hnd h0 h1 hl hfree
    obtain ⟨role, ips⟩ := kv
    have hrole : role ≠ "database" := by
      intro hr
      subst hr
      exact hnd (by simp)
    have hnd2 : "database" ∉ rest.map Prod.fst := by
      intro hx
      exact hnd (by simp [hx])
    simp only [advLoop] at hl
    rcases hsp : hostsOf ips with _ | hosts
    · rw [hsp] at hl
      exact absurd hl (by simp)
    · rw [hsp] at hl
      exact ih hnd2 _ h1 hl (advProcessHosts_dbmFree role hrole hosts 0 h0 hfree)

theorem advProcessHost_keyInv (v0 : String) (role : String) (hr : role ≠ "database")
    (i : Nat) (h : Hash) (ip : String)
    (hinv : ∀ pr ∈ h, "db_master" ∈ pr.2.roles → pr.1 = v0) :
    ∀ pr ∈ advProcessHost role i h ip, "db_master" ∈ pr.2.roles → pr.1 = v0 := by
  intro pr hpr hdbm
  simp only [advProcessHost] at hpr
  rcases mem_hashSet_cases _ _ _ _ hpr with h2 | rfl
  · exact hinv pr h2 hdbm
  · have hbase := advDispatch_no_dbm_intro role hr i _ hdbm
    rcases hg : hashGet h ip with _ | n
    · simp [getOrCreate, hg, mkAdvancedNode_roles] at hbase
    · simp only [getOrCreate, hg] at hbase
      exact hinv (ip, n) (hashGet_mem h ip n hg) hbase

theorem advProcessHosts_keyInv (v0 : String) (role : String) (hr : role ≠ "database") :
    ∀ (hosts : List String) (i : Nat) (h : Hash),
      (∀ pr ∈ h, "db_master" ∈ pr.2.roles → pr.1 = v0) →
      ∀ pr ∈ advProcessHosts role i h hosts, "db_master" ∈ pr.2.roles → pr.1 = v0 := by
  intro hosts
  induction hosts with
  | nil => exact fun i h hinv => hinv
  | cons ip rest ih =>
    intro i h hinv
    exact ih (i + 1) _ (advProcessHost_keyInv v0 role hr i h ip hinv)

theorem advLoop_keyInv (v0 : String) : ∀ (d : Yaml), "database" ∉ d.map Prod.fst →
    ∀ (h0 h1 : Hash), advLoop h0 d = .ok h1 →
      (∀ pr ∈ h0, "db_master" ∈ pr.2.roles → pr.1 = v0) →
      ∀ pr ∈ h1, "db_master" ∈ pr.2.roles → pr.1 = v0 := by
  intro d
  induction d with
  | nil =>
    intro _ h0 h1 hl hinv
    simp only [advLoop] at hl
    injection hl with hl
    subst hl
    exact hinv
  | cons kv rest ih =>
    intro hnd h0 h1 hl hinv
    obtain ⟨role, ips⟩ := kv
    have hrole : role ≠ "database" := by
      intro hr
      subst hr
      exact hnd (by simp)
    have hnd2 : "database" ∉ rest.map Prod.fst := by
      intro hx
      exact hnd (by simp [hx])
    simp only [advLoop] at hl
    rcases hsp : hostsOf ips with _ | hosts
    · rw [hsp] at hl
      exact absurd hl (by simp)
    · rw [hsp] at hl
      exact ih hnd2 _ h1 hl (advProcessHosts_keyInv v0 role hrole hosts 0 h0 hinv)

theorem advProcessHost_db_slave_inv (v0 : String) (j : Nat) (h : Hash) (ip : String)
    (hinv : ∀ pr ∈ h, "db_master" ∈ pr.2.roles → pr.1 = v0) :
    ∀ pr ∈ advProcessHost "database" (j + 1) h ip,
      "db_master" ∈ pr.2.roles → pr.1 = v0 := by
  intro pr hpr hdbm
  simp only [advProcessHost] at hpr
  rcases mem_hashSet_cases _ _ _ _ hpr with h2 | rfl
  · exact hinv pr h2 hdbm
  · rw [advDispatch_database_succ] at hdbm
    have hbase := dbm_of_addRoleA _ _ (by decide) hdbm
    rcases hg : hashGet h ip with _ | n
    · simp [getOrCreate, hg, mkAdvancedNode_roles] at hbase
    · simp only [getOrCreate, hg] at hbase
      exact hinv (ip, n) (hashGet_mem h ip n hg) hbase

theorem advProcessHosts_db_slave_fold (v0 : String) :
    ∀ (vs : List String) (i : Nat) (h : Hash), 1 ≤ i →
      (∀ pr ∈ h, "db_master" ∈ pr.2.roles → pr.1 = v0) →
      ∀ pr ∈ advProcessHosts "database" i h vs, "db_master" ∈ pr.2.roles → pr.1 = v0 := by
  intro vs
  induction vs with
  | nil => exact fun i h _ hinv => hinv
  | cons ip rest ih =>
    intro i h hi hinv
    obtain ⟨j, rfl⟩ : ∃ j, i = j + 1 := ⟨i - 1, by omega⟩
    exact ih (j + 2) _ (by omega) (advProcessHost_db_slave_inv v0 j h ip hinv)

theorem advProcessHosts_db_inv (v : String) (vs : List String) (h : Hash)
    (hfree : ∀ pr ∈ h, "db_master" ∉ pr.2.roles) :
    ∀ pr ∈ advProcessHosts "database" 0 h (v :: vs),
      "db_master" ∈ pr.2.roles → pr.1 = v := by
  have hstep : ∀ pr ∈ advProcessHost "database" 0 h v,
      "db_master" ∈ pr.2.roles → pr.1 = v := by
    intro pr hpr hdbm
    simp only [advProcessHost] at hpr
    rcases mem_hashSet_cases _ _ _ _ hpr with h2 | rfl
    · exact absurd hdbm (hfree pr h2)
    · rfl
  exact advProcessHosts_db_slave_fold v vs 1 _ (by omega) hstep

theorem advLoop_dbm_key_inv : ∀ (d : Yaml) (h0 h1 : Hash), advLoop h0 d = .ok h1 →
    (d.map Prod.fst).Nodup → (∀ pr ∈ h0, "db_master" ∉ pr.2.roles) →
    ∃ v0, ∀ pr ∈ h1, "db_master" ∈ pr.2.roles → pr.1 = v0 := by
  intro d
  induction d with
  | nil =>
    intro h0 h1 hl _ hfree
    simp only [advLoop] at hl
    injection hl with hl
    subst hl
    exact ⟨"", fun pr hpr hdbm => absurd hdbm (hfree pr hpr)⟩
  | cons kv rest ih =>
    intro h0 h1 hl hnd hfree
    obtain ⟨role, ips⟩ := kv
    have hnd2 : role ∉ rest.map Prod.fst ∧ (rest.map Prod.fst).Nodup := by
      rw [List.map_cons] at hnd
      exact List.nodup_cons.mp hnd
    simp only [advLoop] at hl
    rcases hsp : hostsOf ips with _ | hosts
    · rw [hsp] at hl
      exact absurd hl (by simp)
    · rw [hsp] at hl
      by_cases hrole : role = "database"
      · subst hrole
        rcases hosts with _ | ⟨v, vs⟩
        · refine ⟨"", fun pr hpr hdbm =>
            absurd hdbm (advLoop_dbmFree rest hnd2.1 _ h1 hl hfree pr hpr)⟩
        · exact ⟨v, advLoop_keyInv v rest hnd2.1 _ h1 hl
            (advProcessHosts_db_inv v vs h0 hfree)⟩
      · exact ih _ h1 hl hnd2.2 (advProcessHosts_dbmFree role hrole hosts 0 h0 hfree)

/-! Keys of the built hash are duplicate-free. -/

theorem mem_keys_hashSet (h : Hash) (ip : String) (n : PyNode) (x : String)
    (hx : x ∈ (hashSet h ip n).map Prod.fst) : x ∈ h.map Prod.fst ∨ x = ip := by
  rcases List.mem_map.mp hx with ⟨pr, hpr, rfl⟩
  rcases mem_hashSet_cases _ _ _ _ hpr with h2 | rfl
  · exact Or.inl (List.mem_map_of_mem _ h2)
  · exact Or.inr rfl

theorem keys_nodup_hashSet (h : Hash) (ip : String) (n : PyNode)
    (hn : (h.map Prod.fst).Nodup) : ((hashSet h ip n).map Prod.fst).Nodup := by
  induction h with
  | nil => simp [hashSet]
  | cons kv rest ih =>
    obtain ⟨k, v⟩ := kv
    by_cases hk : k = ip
    · simp only [hashSet, if_pos hk, List.map_cons]
      simpa using hn
    · simp only [hashSet, if_neg hk, List.map_cons]
      rw [List.map_cons] at hn
      obtain ⟨hk2, hn2⟩ := List.nodup_cons.mp hn
      refine List.nodup_cons.mpr ⟨?_, ih hn2⟩
      intro hxk
      rcases mem_keys_hashSet rest ip n k hxk with h2 | rfl
      · exact hk2 h2
      · exact hk rfl

theorem advProcessHost_keys_nodup (role : String) (i : Nat) (h : Hash) (ip : String)
    (hn : (h.map Prod.fst).Nodup) :
    ((advProcessHost role i h ip).map Prod.fst).Nodup := by
  simp only [advProcessHost]
  exact keys_nodup_hashSet h ip _ hn

theorem advProcessHosts_keys_nodup (role : String) :
    ∀ (hosts : List String) (i : Nat) (h : Hash), (h.map Prod.fst).Nodup →
      ((advProcessHosts role i h hosts).map Prod.fst).Nodup := by
  intro hosts
  induction hosts with
  | nil => exact fun i h hn => hn
  | cons ip rest ih =>
    intro i h hn
    exact ih (i + 1) _ (advProcessHost_keys_nodup role i h ip hn)

theorem advLoop_keys_nodup : ∀ (d : Yaml) (h0 h1 : Hash), advLoop h0 d = .ok h1 →
    (h0.map Prod.fst).Nodup → (h1.map Prod.fst).Nodup := by
  intro d
  induction d with
  | nil =>
    intro h0 h1 hl hn
    simp only [advLoop] at hl
    injection hl with hl
    subst hl
    exact hn
  | cons kv rest ih =>
    intro h0 h1 hl hn
    obtain ⟨role, ips⟩ := kv
    simp only [advLoop] at hl
    rcases hsp : hostsOf ips with _ | hosts
    · rw [hsp] at hl
      exact absurd hl (by simp)
    · rw [hsp] at hl
      exact ih _ h1 hl (advProcessHosts_keys_nodup role hosts 0 h0 hn)

/-! Counting db_master nodes from the key invariant. -/

theorem countRole_eq_zero (l : List PyNode) (r : Role) (h : ∀ n ∈ l, r ∉ n.roles) :
    countRole l r = 0 := by
  induction l with
  | nil => rfl
  | cons n rest ih =>
    rw [countRole_cons]
    have hn : is_role n r = false := by
      rw [Bool.eq_false_iff]
      intro hx
      exact h n (List.mem_cons_self n rest) ((is_role_iff n r).mp hx)
    rw [hn, if_neg (by decide : ¬ (false = true)),
      ih (fun m hm => h m (List.mem_cons_of_mem n hm))]

theorem countRole_le_one_of_keyed (h : Hash) (v0 : String)
    (hnd : (h.map Prod.fst).Nodup)
    (hinv : ∀ pr ∈ h, "db_master" ∈ pr.2.roles → pr.1 = v0) :
    countRole (h.map Prod.snd) "db_master" ≤ 1 := by
  induction h with
  | nil => simp [countRole]
  | cons kv rest ih =>
    obtain ⟨k, v⟩ := kv
    rw [List.map_cons, countRole_cons]
    rw [List.map_cons] at hnd
    obtain ⟨hk, hnd2⟩ := List.nodup_cons.mp hnd
    by_cases hv : is_role v "db_master" = true
    · have hkv : k = v0 :=
        hinv (k, v) (List.mem_cons_self _ _) ((is_role_iff v "db_master").mp hv)
    -- every other stored node would have to sit under the same key, which
    -- the no-duplicate-keys hypothesis rules out
      have hrest : countRole (rest.map Prod.snd) "db_master" = 0 := by
        refine countRole_eq_zero _ _ ?_
        intro n hn hdbm
        rcases List.mem_map.mp hn with ⟨pr, hpr, rfl⟩
        have hp0 : pr.1 = v0 := hinv pr (List.mem_cons_of_mem _ hpr) hdbm
        have hpk : pr.1 = k := hp0.trans hkv.symm
        have hmem : pr.1 ∈ rest.map Prod.fst := List.mem_map_of_mem Prod.fst hpr
        rw [hpk] at hmem
        exact hk hmem
      rw [hv, if_pos rfl, hrest]
    · have hvf : is_role v "db_master" = false := Bool.eq_false_iff.mpr hv
      rw [hvf, if_neg (by decide : ¬ (false = true))]
      have hr := ih hnd2 (fun pr hpr => hinv pr (List.mem_cons_of_mem _ hpr))
      omega

theorem dbCount_eq_dbm (l : List PyNode) (hd : ∀ n ∈ l, "database" ∉ n.roles) :
    (l.filter (fun n => is_role n "database" || is_role n "db_master")).length =
      countRole l "db_master" := by
  induction l with
  | nil => rfl
  | cons n rest ih =>
    rw [countRole_cons, List.filter_cons]
    have hdf : is_role n "database" = false := by
      rw [Bool.eq_false_iff]
      intro hx
      exact hd n (List.mem_cons_self n rest) ((is_role_iff n "database").mp hx)
    have ihh := ih (fun m hmm => hd m (List.mem_cons_of_mem n hmm))
    by_cases hm : is_role n "db_master" = true
    · simp [hdf, hm]
      omega
    · have hmf : is_role n "db_master" = false := Bool.eq_false_iff.mpr hm
      simp [hdf, hmf]
      omega

/-! The promotion stages neither add `database` nor change the `db_master`
count. -/

theorem advPromote1_dbFree (nodes : List PyNode) (mi : Nat)
    (hd : ∀ n ∈ nodes, "database" ∉ n.roles) :
    ∀ n ∈ advPromote1 nodes mi, "database" ∉ n.roles := by
  unfold advPromote1
  split
  · exact forall_updateIdx nodes mi _ hd
      (fun n hn => databaseFree_addRoleA n "login" (by decide) (hd n hn))
  · exact hd

theorem advPromote2_dbFree (nodes : List PyNode)
    (hd : ∀ n ∈ nodes, "database" ∉ n.roles) :
    ∀ n ∈ advPromote2 nodes, "database" ∉ n.roles := by
  unfold advPromote2
  split
  · refine forall_map nodes _ (fun n hn => ?_)
    by_cases ha : is_role n "appengine" = true
    · rw [if_pos ha]
      exact databaseFree_addRoleA n "memcache" (by decide) (hd n hn)
    · rw [if_neg ha]
      exact hd n hn
  · exact hd

theorem advPromote3_dbFree (nodes : List PyNode) (mi : Nat)
    (hd : ∀ n ∈ nodes, "database" ∉ n.roles) :
    ∀ n ∈ advPromote3 nodes mi, "database" ∉ n.roles := by
  unfold advPromote3
  split
  · exact forall_updateIdx nodes mi _ hd
      (fun n hn => databaseFree_addRoleA n "zookeeper" (by decide) (hd n hn))
  · exact hd

theorem advPromote4_dbFree (nodes : List PyNode) (mi : Nat)
    (hd : ∀ n ∈ nodes, "database" ∉ n.roles) :
    ∀ n ∈ advPromote4 nodes mi, "database" ∉ n.roles := by
  unfold advPromote4
  split
  · exact forall_updateIdx nodes mi _ hd (fun n hn =>
      databaseFree_addRoleA _ "rabbitmq_master" (by decide)
        (databaseFree_addRoleA n "rabbitmq" (by decide) (hd n hn)))
  · exact hd

theorem advPromote5_dbFree (nodes : List PyNode)
    (hd : ∀ n ∈ nodes, "database" ∉ n.roles) :
    ∀ n ∈ advPromote5 nodes, "database" ∉ n.roles := by
  unfold advPromote5
  refine forall_map nodes _ (fun n hn => ?_)
  by_cases ha : (is_role n "appengine" && !(is_role n "rabbitmq")) = true
  · rw [if_pos ha]
    exact databaseFree_addRoleA n "rabbitmq_slave" (by decide) (hd n hn)
  · rw [if_neg ha]
    exact hd n hn

theorem advPromote1_dbm (nodes : List PyNode) (mi : Nat) :
    countRole (advPromote1 nodes mi) "db_master" = countRole nodes "db_master" := by
  unfold advPromote1
  split
  · exact countRole_updateIdx_congr nodes mi _ "db_master" (fun n hn =>
      mem_addRoleA_iff_of_ne "db_master" n "login"
        (by decide) (by decide) (by decide) (by decide) (by decide))
  · rfl

theorem advPromote2_dbm (nodes : List PyNode) :
    countRole (advPromote2 nodes) "db_master" = countRole nodes "db_master" := by
  unfold advPromote2
  split
  · refine countRole_map_congr nodes _ "db_master" (fun n hn => ?_)
    by_cases ha : is_role n "appengine" = true
    · rw [if_pos ha]
      exact mem_addRoleA_iff_of_ne "db_master" n "memcache"
        (by decide) (by decide) (by decide) (by decide) (by decide)
    · rw [if_neg ha]
  · rfl

theorem advPromote3_dbm (nodes : List PyNode) (mi : Nat) :
    countRole (advPromote3 nodes mi) "db_master" = countRole nodes "db_master" := by
  unfold advPromote3
  split
  · exact countRole_updateIdx_congr nodes mi _ "db_master" (fun n hn =>
      mem_addRoleA_iff_of_ne "db_master" n "zookeeper"
        (by decide) (by decide) (by decide) (by decide) (by decide))
  · rfl

theorem advPromote4_dbm (nodes : List PyNode) (mi : Nat) :
    countRole (advPromote4 nodes mi) "db_master" = countRole nodes "db_master" := by
  unfold advPromote4
  split
  · refine countRole_updateIdx_congr nodes mi _ "db_master" (fun n hn => ?_)
    exact (mem_addRoleA_iff_of_ne "db_master" (addRoleA n "rabbitmq") "rabbitmq_master"
        (by decide) (by decide) (by decide) (by decide) (by decide)).trans
      (mem_addRoleA_iff_of_ne "db_master" n "rabbitmq"
        (by decide) (by decide) (by decide) (by decide) (by decide))
  · rfl

theorem advPromote5_dbm (nodes : List PyNode) :
    countRole (advPromote5 nodes) "db_master" = countRole nodes "db_master" := by
  unfold advPromote5
  refine countRole_map_congr nodes _ "db_master" (fun n hn => ?_)
  by_cases ha : (is_role n "appengine" && !(is_role n "rabbitmq")) = true
  · rw [if_pos ha]
    exact mem_addRoleA_iff_of_ne "db_master" n "rabbitmq_slave"
      (by decide) (by decide) (by decide) (by decide) (by decide)
  · rw [if_neg ha]

/-! What a successful replication check forces when at most one node counts
as a database node. -/

theorem repl_valid_facts (nodes : List PyNode) (repl : Option Nat) (dbt : String)
    (hle : (nodes.filter (fun n => is_role n "database" || is_role n "db_master")).length ≤ 1)
    (hok : (is_database_replication_valid nodes repl dbt).1.result = true) :
    (nodes.filter (fun n => is_role n "database" || is_role n "db_master")).length = 1 ∧
    (is_database_replication_valid nodes repl dbt).2 = some 1 ∧
    repl.getD 0 ≤ 1 := by
  have hc0 : (nodes.filter (fun n => is_role n "database" || is_role n "db_master")).length = 0 ∨
      (nodes.filter (fun n => is_role n "database" || is_role n "db_master")).length = 1 := by
    omega
  rcases hc0 with hc | hc
  · exfalso
    simp [is_database_replication_valid, hc, invalidR] at hok
  · have hrepl : repl = none ∨ repl = some 0 ∨ repl = some 1 := by
      rcases repl with _ | k
      · exact Or.inl rfl
      · rcases k with _ | k1
        · exact Or.inr (Or.inl rfl)
        · rcases k1 with _ | k2
          · exact Or.inr (Or.inr rfl)
          · exfalso
            have hnf : natFalsy (some (k2 + 1 + 1)) = false := rfl
            have hlt : 1 < k2 + 1 + 1 := by omega
            simp [is_database_replication_valid, hc, hnf, hlt, invalidR,
              Option.getD] at hok
    rcases hrepl with rfl | rfl | rfl
    · exact ⟨hc, by simp [is_database_replication_valid, hc, natFalsy, validR], by decide⟩
    · exact ⟨hc, by simp [is_database_replication_valid, hc, natFalsy, validR], by decide⟩
    · exact ⟨hc, by simp [is_database_replication_valid, hc, natFalsy, validR], by decide⟩

set_option maxHeartbeats 1600000 in
theorem is_valid_advanced_format_db (va : List String) (p : LayoutParams) (y : Yaml)
    (out : LayoutOut) (hnd : (y.map Prod.fst).Nodup)
    (h : is_valid_advanced_format va p y = .ok out)
    (hok : out.check.result = true) :
    (∀ n ∈ out.nodes, "database" ∉ n.roles) ∧
    (out.nodes.filter (fun n => is_role n "database" || is_role n "db_master")).length = 1 ∧
    out.replication = some 1 ∧ p.replication.getD 0 ≤ 1 := by
  simp only [is_valid_advanced_format] at h
  split at h
  · exact absurd h (by simp)
  · next hh heq =>
    have hdb0 : ∀ n ∈ hh.map Prod.snd, "database" ∉ n.roles :=
      advLoop_values_databaseFree y hh heq
    have hknd : (hh.map Prod.fst).Nodup :=
      advLoop_keys_nodup y [] hh heq (by simp)
    have hfree0 : ∀ pr ∈ ([] : Hash), "db_master" ∉ pr.2.roles := by
      intro pr hpr
      exact absurd hpr (List.not_mem_nil _)
    obtain ⟨v0, hkey⟩ := advLoop_dbm_key_inv y [] hh heq hnd hfree0
    have hdbm0 : countRole (hh.map Prod.snd) "db_master" ≤ 1 :=
      countRole_le_one_of_keyed hh v0 hknd hkey
    split at h
    · rw [Except.ok.injEq] at h
      subst h
      simp [invalidR] at hok
    · split at h
      · rw [Except.ok.injEq] at h
        subst h
        simp [invalidR] at hok
      · split at h
        · rw [Except.ok.injEq] at h
          subst h
          simp [invalidR] at hok
        · split at h
          · rw [Except.ok.injEq] at h
            subst h
            simp [invalidR] at hok
          · split at h
            · rename_i hcond
              rw [Except.ok.injEq] at h
              subst h
              simp only [] at hok ⊢
              have hd1 := advPromote1_dbFree (hh.map Prod.snd)
                ((hh.map Prod.snd).findIdx (fun n => is_role n "shadow")) hdb0
              have hd2 := advPromote2_dbFree _ hd1
              have hd3 := advPromote3_dbFree _
                ((hh.map Prod.snd).findIdx (fun n => is_role n "shadow")) hd2
              have hd4 := advPromote4_dbFree _
                ((hh.map Prod.snd).findIdx (fun n => is_role n "shadow")) hd3
              have hd5 := advPromote5_dbFree _ hd4
              have hcnt : countRole (advPromote5 (advPromote4 (advPromote3 (advPromote2
                  (advPromote1 (hh.map Prod.snd)
                    ((hh.map Prod.snd).findIdx (fun n => is_role n "shadow"))))
                  ((hh.map Prod.snd).findIdx (fun n => is_role n "shadow")))
                  ((hh.map Prod.snd).findIdx (fun n => is_role n "shadow"))))
                  "db_master" ≤ 1 := by
                rw [advPromote5_dbm, advPromote4_dbm, advPromote3_dbm, advPromote2_dbm,
                  advPromote1_dbm]
                exact hdbm0
              have hle2 : ((advPromote5 (advPromote4 (advPromote3 (advPromote2
                  (advPromote1 (hh.map Prod.snd)
                    ((hh.map Prod.snd).findIdx (fun n => is_role n "shadow"))))
                  ((hh.map Prod.snd).findIdx (fun n => is_role n "shadow")))
                  ((hh.map Prod.snd).findIdx (fun n => is_role n "shadow")))).filter
                  (fun n => is_role n "database" || is_role n "db_master")).length ≤ 1 := by
                rw [dbCount_eq_dbm _ hd5]
                exact hcnt
              obtain ⟨he1, he2, he3⟩ :=
                repl_valid_facts _ p.replication p.databaseType hle2 hcond
              exact ⟨hd5, he1, he2, he3⟩
            · rename_i hneg
              rw [Except.ok.injEq] at h
              subst h
              exact absurd hok hneg

/-- C7: in an advanced-dialect build (with the description's keys distinct,
as Python dict keys are), no node of a successfully validated layout carries
the literal `database` role token, the replication validator's database-node
count (nodes carrying `database` or `db_master`) is exactly 1, the stored
replication factor is exactly 1, and any requested factor of 2 or more would
have been rejected (a successful run's requested factor is absent, 0, or 1). -/
theorem claim_C7_advanced_database_invariant (va : List String) (p : LayoutParams)
    (y : Yaml) (hnd : (y.map Prod.fst).Nodup) (hok : advResultOk va p y = true) :
    (advResultNodes va p y).all (fun n => !(is_role n "database")) = true ∧
    ((advResultNodes va p y).filter
        (fun n => is_role n "database" || is_role n "db_master")).length = 1 ∧
    advResultRepl va p y = some 1 ∧ p.replication.getD 0 ≤ 1 := by
  rcases hv : is_valid_advanced_format va p y with e | o
  · rw [advResultOk, hv] at hok
    simp at hok
  · rw [advResultOk, hv] at hok
    obtain ⟨h1, h2, h3, h4⟩ := is_valid_advanced_format_db va p y o hnd hv hok
    refine ⟨?_, ?_, ?_, h4⟩
    · simp only [advResultNodes, hv]
      rw [List.all_eq_true]
      intro n hn
      simp [is_role, h1 n hn]
    · simp only [advResultNodes, hv]
      exact h2
    · simp only [advResultRepl, hv]
      exact h3

theorem claim_C7_advanced_database_invariant_witness :
    (yAdvThree.map Prod.fst).Nodup ∧ advResultOk [] pPlain yAdvThree = true ∧
    ((advResultNodes [] pPlain yAdvThree).all (fun n => !(is_role n "database")) = true ∧
     ((advResultNodes [] pPlain yAdvThree).filter
         (fun n => is_role n "database" || is_role n "db_master")).length = 1 ∧
     advResultRepl [] pPlain yAdvThree = some 1 ∧ pPlain.replication.getD 0 ≤ 1) :=
  ⟨by decide, rfl,
   claim_C7_advanced_database_invariant [] pPlain yAdvThree (by decide) rfl⟩
